import Mathlib

/-!
Verification of the RSF ("Repository Snapshot Format") codec.

This file gives a shallow embedding, in Lean, of the RSF writer and reader
(package `rsf`): the primitive field codec (`writer.go`, `reader.go`), the
navigational reader over the schema index (`reader_index.go`), and the
schema-driven object writer (`legacy.go`, `writer_index.go`).  Byte streams
are `List Nat` (each entry a byte value), machine integers are `Nat`/`Int`
with explicit `% 2 ^ w` where Go truncates, Go strings are their byte lists,
and fallible operations return `Except`.  Stateful Go methods become
functions on explicit reader/writer state records.  Reflection-driven
recursion over Go values becomes recursion over an explicit value tree,
with fuel for the recursions whose Go counterpart recurses over reflected
structures.
-/

namespace RSF

/-- A byte on the wire, as a natural number (valid bytes are `< 256`). -/
abbrev Byte := Nat

/-- A Go string, as its list of bytes. -/
abbrev GoStr := List Byte

/-- Byte list of an ASCII Lean string literal (code points = UTF-8 bytes for
ASCII, which covers every identifier in the repository's schemas). -/
def gostr (s : String) : GoStr := s.data.map Char.toNat

/-- General constants from the source (`sizeFieldLen`, `sizeFloat64`,
`sizeInt64`). -/
def sizeFieldLen : Nat := 4

def sizeFloat64 : Nat := 8

def sizeInt64 : Nat := 10

/-- Wire codes for field types (`FieldTypeVarStr` .. `FieldTypeInt64`),
as pinned by the byte-level expectations in `writer_test.go`. -/
def FieldTypeVarStr : Nat := 1

def FieldTypeFixedStr : Nat := 2

def FieldTypeBool : Nat := 3

def FieldTypeArray : Nat := 4

def FieldTypeFloat : Nat := 6

def FieldTypeInt64 : Nat := 7

/-- Numeric values of the Go `reflect.Kind`s that appear on the wire in
version-2 array metadata (`int(reflect.Int64)`, `int(reflect.Slice)`,
`int(reflect.String)`, `int(reflect.Struct)`). -/
def kindInt64 : Nat := 6

def kindSlice : Nat := 23

def kindString : Nat := 24

def kindStruct : Nat := 25

/-- The 3-byte version-2 magic (`IndexVersion2`): NUL, backspace, ASCII "2". -/
def IndexVersion2 : List Byte := [0x00, 0x08, 0x32]

/-- Little-endian 32-bit encoding of a value, exactly the four bytes
produced by `binary.LittleEndian.PutUint32(bs, uint32(val))`. -/
def le32 (n : Nat) : List Byte :=
  [n % 256, n / 256 % 256, n / 65536 % 256, n / 16777216 % 256]

/-- Value of four little-endian bytes (`binary.LittleEndian.Uint32`). -/
def readLe32 (b0 b1 b2 b3 : Byte) : Nat :=
  b0 % 256 + 256 * (b1 % 256) + 65536 * (b2 % 256) + 16777216 * (b3 % 256)

/-- Little-endian 64-bit encoding
(`binary.LittleEndian.PutUint64(bs, math.Float64bits(val))`). -/
def le64 (n : Nat) : List Byte :=
  [n % 256, n / 2 ^ 8 % 256, n / 2 ^ 16 % 256, n / 2 ^ 24 % 256,
   n / 2 ^ 32 % 256, n / 2 ^ 40 % 256, n / 2 ^ 48 % 256, n / 2 ^ 56 % 256]

/-- Value of eight little-endian bytes (`binary.LittleEndian.Uint64`). -/
def readLe64 (bs : List Byte) : Nat :=
  match bs with
  | [b0, b1, b2, b3, b4, b5, b6, b7] =>
      b0 % 256 + 2 ^ 8 * (b1 % 256) + 2 ^ 16 * (b2 % 256) + 2 ^ 24 * (b3 % 256) +
      2 ^ 32 * (b4 % 256) + 2 ^ 40 * (b5 % 256) + 2 ^ 48 * (b6 % 256) + 2 ^ 56 * (b7 % 256)
  | _ => 0

/-! ### Go varints (`encoding/binary`)

`binary.PutUvarint` emits base-128 digits, low first, continuation bit `0x80`;
`binary.PutVarint` first zig-zags the signed value.  `binary.Varint` decodes,
stopping at the first byte below `0x80` and treating more than ten bytes (or a
tenth byte above 1) as overflow, in which case the accumulated value is zero. -/

/-- Unsigned varint encoding loop (`binary.PutUvarint`): low 7-bit digit
first, continuation bit `0x80` on every digit but the last.  The first
argument bounds the digit count (`binary.MaxVarintLen64` digits always
suffice for the `uint64` Go passes; the fuel-exhausted fallback is
unreachable on that domain). -/
def putUvarintF : Nat → Nat → List Byte
  | 0, _ => []
  | f + 1, x =>
    if x < 128 then [x]
    else (x % 128 + 128) :: putUvarintF f (x / 128)

/-- Unsigned varint encoding of a `uint64` (`binary.PutUvarint` into the
10-byte buffer `WriteInt64Field` allocates). -/
def putUvarint (x : Nat) : List Byte := putUvarintF 10 x

/-- Unsigned varint decoding loop (`binary.Uvarint`): byte list, shift amount,
accumulator, byte index.  `none` models the zero result Go produces on
truncated or overflowing input. -/
def uvarintDecAux : List Byte → Nat → Nat → Nat → Option Nat
  | [], _, _, _ => none
  | b :: rest, s, x, i =>
    if b % 256 < 128 then
      if 9 < i ∨ (i = 9 ∧ 1 < b % 256) then none
      else some (x + b % 256 * 2 ^ s)
    else uvarintDecAux rest (s + 7) (x + b % 128 * 2 ^ s) (i + 1)

/-- Value decoded by `binary.Uvarint` (zero on truncation/overflow). -/
def uvarintDec (l : List Byte) : Nat := (uvarintDecAux l 0 0 0).getD 0

/-- Zig-zag of a signed 64-bit value (`ux := uint64(x) << 1; if x < 0 ux = ^ux`). -/
def zigzag (x : Int) : Nat :=
  if 0 ≤ x then (2 * x).toNat else (-2 * x - 1).toNat

/-- Value decoded by `binary.Varint`: un-zig-zag of the unsigned decode. -/
def varintDec (l : List Byte) : Int :=
  let ux := uvarintDec l
  if ux % 2 = 1 then -(((ux / 2 : Nat) : Int) + 1) else (ux / 2 : Nat)

/-- Pad a byte list on the right with zero bytes up to length `n` (the
zero-initialised buffer `make([]byte, n)` that Go writes whole). -/
def padRight (n : Nat) (l : List Byte) : List Byte :=
  l ++ List.replicate (n - l.length) 0

/-! ### Writer primitives (`writer.go`)

Each Go method writes to an `io.Writer` and returns `pos + bytes written`;
here each primitive is the byte list it appends.  `WriteFixedStringField`
and array writing are the only fallible primitives. -/

/-- Bytes appended by `WriteSizeField` (4-byte little-endian `uint32(val)`). -/
def writeSizeBytes (val : Nat) : List Byte := le32 val

/-- Bytes appended by `WriteInt64Field`: a 10-byte zero-initialised buffer
holding `binary.PutVarint`, written whole. -/
def writeInt64Bytes (v : Int) : List Byte := padRight sizeInt64 (putUvarint (zigzag v))

/-- Bytes appended by `WriteFloatField` for a value with IEEE-754 bits `bits`. -/
def writeFloatBytes (bits : Nat) : List Byte := le64 bits

/-- Bytes appended by `WriteBoolField`. -/
def writeBoolBytes (b : Bool) : List Byte := if b then [1] else [0]

/-- Bytes appended by `WriteStringField`: 4-byte length then the bytes. -/
def writeStringBytes (s : GoStr) : List Byte := le32 s.length ++ s

/-- Bytes appended by `WriteFixedStringField sz`: exactly the string bytes,
but an error when the length differs from `sz`. -/
def writeFixedStringBytes (sz : Nat) (s : GoStr) : Option (List Byte) :=
  if s.length = sz then some s else none

/-! ### Reader state and primitives (`reader.go`)

`rsfReader` holds a byte position, the cached schema index and the logical
position path `at`; the unread remainder of the stream is carried in the
state as well.  Errors carry the reader state at the moment of the error
(the Go methods mutate the receiver in place, so a failed call leaves
whatever was already updated). -/

/-- One node of the in-memory schema index (`IndexEntry`). -/
inductive IndexEntry : Type where
  | mk : GoStr → Nat → Nat → Bool → Nat → Nat → Nat → List IndexEntry → IndexEntry

/-- Field name of an index entry. -/
def IndexEntry.fieldName : IndexEntry → GoStr
  | .mk n _ _ _ _ _ _ _ => n

/-- Field type code of an index entry. -/
def IndexEntry.fieldType : IndexEntry → Nat
  | .mk _ t _ _ _ _ _ _ => t

/-- Declared fixed size of an index entry (`FieldSize`). -/
def IndexEntry.fieldSize : IndexEntry → Nat
  | .mk _ _ s _ _ _ _ _ => s

/-- Whether the entry's array carries a key table (`Indexed`). -/
def IndexEntry.indexed : IndexEntry → Bool
  | .mk _ _ _ b _ _ _ _ => b

/-- Bytes per array-index key (`IndexSize`). -/
def IndexEntry.indexSize : IndexEntry → Nat
  | .mk _ _ _ _ s _ _ _ => s

/-- Kind code of the array-index key (`IndexType`). -/
def IndexEntry.indexType : IndexEntry → Nat
  | .mk _ _ _ _ _ t _ _ => t

/-- Kind code of the array's element type (`SubfieldType`). -/
def IndexEntry.subfieldType : IndexEntry → Nat
  | .mk _ _ _ _ _ _ t _ => t

/-- Sub-entries of an array of structs (`Subfields`). -/
def IndexEntry.subfields : IndexEntry → List IndexEntry
  | .mk _ _ _ _ _ _ _ s => s

/-- The reader state (`rsfReader`), together with the unread input. -/
structure Rdr where
  pos : Nat
  index : List IndexEntry
  atp : List GoStr
  input : List Byte
  indexVersion : Nat

/-- Reader-side error conditions. -/
inductive RErr : Type where
  | eof
  | noSuchField
  | negativeDiscard
  | unknownFieldType (t : Nat)
  | indexOverrun (pos finalPos : Nat)
  | rangePanic
  | outOfFuel
  deriving DecidableEq, Repr

/-- Result of a reader operation: either an error with the state at the time
of the error, or a value with the updated state. -/
abbrev RunR (α : Type) := Except (RErr × Rdr) (α × Rdr)

/-- `Discard`: drop `n` bytes, advancing `pos` by exactly `n`. -/
def discard (n : Nat) (r : Rdr) : RunR Unit :=
  if n ≤ r.input.length then
    .ok ((), { r with pos := r.pos + n, input := r.input.drop n })
  else .error (.eof, r)

/-- `ReadSizeField`: four little-endian bytes as a non-negative count. -/
def readSizeField (r : Rdr) : RunR Nat :=
  match r.input with
  | b0 :: b1 :: b2 :: b3 :: rest =>
      .ok (readLe32 b0 b1 b2 b3, { r with pos := r.pos + 4, input := rest })
  | _ => .error (.eof, r)

/-- `ReadFixedStringField sz`: exactly `sz` raw bytes. -/
def readFixedStringField (sz : Nat) (r : Rdr) : RunR GoStr :=
  if sz ≤ r.input.length then
    .ok (r.input.take sz, { r with pos := r.pos + sz, input := r.input.drop sz })
  else .error (.eof, r)

/-- `ReadStringField`: a 4-byte size then that many bytes. -/
def readStringField (r : Rdr) : RunR GoStr :=
  match readSizeField r with
  | .error e => .error e
  | .ok (sz, r1) =>
    if sz ≤ r1.input.length then
      .ok (r1.input.take sz, { r1 with pos := r1.pos + sz, input := r1.input.drop sz })
    else .error (.eof, r1)

/-- `ReadBoolField`: one byte, true exactly when that byte equals 1
(the source compares `bs[0] == 1`). -/
def readBoolField (r : Rdr) : RunR Bool :=
  match r.input with
  | b :: rest => .ok (b == 1, { r with pos := r.pos + 1, input := rest })
  | _ => .error (.eof, r)

/-- `ReadIntField`: exactly `sizeInt64` bytes, decoded by `binary.Varint`. -/
def readIntField (r : Rdr) : RunR Int :=
  if sizeInt64 ≤ r.input.length then
    .ok (varintDec (r.input.take sizeInt64),
         { r with pos := r.pos + sizeInt64, input := r.input.drop sizeInt64 })
  else .error (.eof, r)

/-- `ReadFloatField`: exactly `sizeFloat64` bytes; the value is returned as
its IEEE-754 bit pattern. -/
def readFloatField (r : Rdr) : RunR Nat :=
  if sizeFloat64 ≤ r.input.length then
    .ok (readLe64 (r.input.take sizeFloat64),
         { r with pos := r.pos + sizeFloat64, input := r.input.drop sizeFloat64 })
  else .error (.eof, r)

/-! ### Schema lookup and navigation (`reader_index.go`) -/

/-- The empty field name (`Top`). -/
def Top : GoStr := []

/-- Inner loop of `entrySet`: the first entry of `next` whose name matches
`field` (any entry matches when `field` is `Top`), with its position. -/
def entryFindAux (next : List IndexEntry) (field : GoStr) (pos : Nat) :
    Option (Nat × IndexEntry) :=
  match next with
  | [] => none
  | e :: es =>
    if e.fieldName = field ∨ field = Top then some (pos, e)
    else entryFindAux es field (pos + 1)

/-- Path-walking loop of `entrySet`: on each found field, `at` becomes the
list in which it was found, `atPos` its position (or −1 for `Top`), and the
search continues in its subfields. -/
def entrySetAux : List GoStr → List IndexEntry → List IndexEntry → Int →
    Option (List IndexEntry × Int)
  | [], at_, _, atPos => some (at_, atPos)
  | f :: fs, _, next, _ =>
    match entryFindAux next f 0 with
    | none => none
    | some (pos, e) =>
        entrySetAux fs next e.subfields (if f = Top then -1 else (pos : Int))

/-- `entrySet`: resolve a path in the schema index; a nil path is `[Top]`,
and an unresolvable path is the `NoSuchField` condition. -/
def entrySet (index : List IndexEntry) (fields : List GoStr) :
    Option (List IndexEntry × Int) :=
  entrySetAux (if fields.isEmpty then [Top] else fields) index index 0

/-- `advance`: skip one field without parsing its semantics, using only the
schema entry and size prefixes (fixed size for FIXED_STR, 4-byte size then
that many bytes for VAR_STR, 1 for BOOL, 10 for INT64, 8 for FLOAT, and for
ARRAY the 4-byte total size then `total_size − 4` more bytes). -/
def advance (advField : IndexEntry) (r : Rdr) : RunR Unit :=
  if advField.fieldType = FieldTypeFixedStr then discard advField.fieldSize r
  else if advField.fieldType = FieldTypeArray then
    match readSizeField r with
    | .error e => .error e
    | .ok (sz, r1) =>
      if sz < sizeFieldLen then .error (.negativeDiscard, r1)
      else discard (sz - sizeFieldLen) r1
  else if advField.fieldType = FieldTypeVarStr then
    match readSizeField r with
    | .error e => .error e
    | .ok (sz, r1) => discard sz r1
  else if advField.fieldType = FieldTypeBool then discard 1 r
  else if advField.fieldType = FieldTypeInt64 then discard sizeInt64 r
  else if advField.fieldType = FieldTypeFloat then discard sizeFloat64 r
  else .error (.unknownFieldType advField.fieldType, r)

/-- The skipping loop of `AdvanceTo` (`for i := fromPos + 1; i < toPos; i++`):
`count` remaining iterations starting at position `i` of the resolved field
list (the loop runs `stop − start` times when no read fails). -/
def advIterF : Nat → List IndexEntry → Nat → Rdr → RunR Unit
  | 0, _, _, r => .ok ((), r)
  | count + 1, fieldList, i, r =>
    match fieldList[i]? with
    | none => .error (.rangePanic, r)
    | some e =>
      match advance e r with
      | .error er => .error er
      | .ok (_, r1) => advIterF count fieldList (i + 1) r1

/-- `AdvanceTo`: truncate or `Top`-extend the current position path to the
target's length, resolve both through `entrySet`, skip every sibling
strictly between the two positions, and record the new position path. -/
def advanceTo (fieldNames : List GoStr) (r : Rdr) : RunR Unit :=
  let at0 := r.atp
  let at1 :=
    if fieldNames.length < at0.length then at0.take fieldNames.length
    else if at0.length < fieldNames.length then at0 ++ [Top]
    else at0
  match entrySet r.index at1 with
  | none => .error (.noSuchField, r)
  | some (fieldList, fromPos) =>
    match entrySet r.index fieldNames with
    | none => .error (.noSuchField, r)
    | some (_, toPos) =>
      match advIterF (toPos.toNat - (fromPos + 1).toNat) fieldList (fromPos + 1).toNat r with
      | .error e => .error e
      | .ok (_, r1) => .ok ((), { r1 with atp := fieldNames })

/-! ### Reading the schema index (`ReadIndex`, `readIndexEntries`)

The entry loop is given fuel (the Go loop terminates because every
iteration consumes input); all claims about it are conditional on a
successful run, which the fuel cannot spuriously produce. -/

/-- The per-entry reads of one `readIndexEntries` iteration. -/
structure EntryHead where
  fieldName : GoStr
  fieldType : Nat
  subfieldCount : Nat
  indexed : Bool
  arrayFieldType : Nat
  indexSize : Nat
  indexType : Nat
  fieldSize : Nat

/-- Version-2 array metadata reads (`indexed`, key type and size, element
type); version-1 indexes carry none of these. -/
def readArrayMeta (r : Rdr) : RunR (Bool × Nat × Nat × Nat) :=
  if 2 ≤ r.indexVersion then
    match readBoolField r with
    | .error e => .error e
    | .ok (indexed, r1) =>
      if indexed then
        match readSizeField r1 with
        | .error e => .error e
        | .ok (indexType, r2) =>
          match readSizeField r2 with
          | .error e => .error e
          | .ok (indexSize, r3) =>
            match readSizeField r3 with
            | .error e => .error e
            | .ok (arrayFieldType, r4) => .ok ((true, indexType, indexSize, arrayFieldType), r4)
      else
        match readSizeField r1 with
        | .error e => .error e
        | .ok (arrayFieldType, r2) => .ok ((false, 0, 0, arrayFieldType), r2)
  else .ok ((false, 0, 0, 0), r)

/-- The field reads of one `readIndexEntries` iteration: name, type code,
array metadata and subfield count (for arrays), fixed size (for fixed
strings), then the index-overrun check against `finalPos`. -/
def readEntryHead (finalPos : Int) (r : Rdr) : RunR EntryHead :=
  match readStringField r with
  | .error e => .error e
  | .ok (fieldName, r1) =>
    match readSizeField r1 with
    | .error e => .error e
    | .ok (fieldType, r2) =>
      match
        (if fieldType = FieldTypeArray then
          match readArrayMeta r2 with
          | .error e => .error e
          | .ok ((indexed, indexType, indexSize, arrayFieldType), r3) =>
            match readSizeField r3 with
            | .error e => .error e
            | .ok (subfieldCount, r4) =>
                .ok ((subfieldCount, indexed, arrayFieldType, indexSize, indexType), r4)
        else .ok ((0, false, 0, 0, 0), r2) :
          RunR (Nat × Bool × Nat × Nat × Nat)) with
      | .error e => .error e
      | .ok ((subfieldCount, indexed, arrayFieldType, indexSize, indexType), r5) =>
        match
          (if fieldType = FieldTypeFixedStr then readSizeField r5
           else .ok (0, r5) : RunR Nat) with
        | .error e => .error e
        | .ok (fieldSize, r6) =>
          if finalPos < (r6.pos : Int) then .error (.indexOverrun r6.pos finalPos.toNat, r6)
          else .ok (⟨fieldName, fieldType, subfieldCount, indexed, arrayFieldType,
                     indexSize, indexType, fieldSize⟩, r6)

/-- `readIndexEntries`: the entry loop, breaking after `limit` entries when
`limit` is non-zero, or exactly at `finalPos` (the declared end of the
index) at the top level. -/
def readIndexEntriesF : Nat → Rdr → Int → Nat → Nat → RunR (List IndexEntry)
  | 0, r, _, _, _ => .error (.outOfFuel, r)
  | fuel + 1, r, finalPos, limit, pass =>
    if limit ≠ 0 ∧ pass = limit then .ok ([], r)
    else if (r.pos : Int) = finalPos then .ok ([], r)
    else
      match readEntryHead finalPos r with
      | .error e => .error e
      | .ok (h, r1) =>
        match
          (if 0 < h.subfieldCount then readIndexEntriesF fuel r1 finalPos h.subfieldCount 0
           else .ok ([], r1) : RunR (List IndexEntry)) with
        | .error e => .error e
        | .ok (subs, r2) =>
          match readIndexEntriesF fuel r2 finalPos limit (pass + 1) with
          | .error e => .error e
          | .ok (rest, r3) =>
            .ok (.mk h.fieldName h.fieldType h.fieldSize h.indexed h.indexSize
                   h.indexType h.arrayFieldType subs :: rest, r3)

/-- `ReadIndex`: peek the first three bytes for the version-2 magic; read
the 4-byte index size (reusing the peeked bytes for version 1); then read
entries until the position reaches `pos + size − 4`; cache the entries. -/
def readIndexF (fuel : Nat) (r : Rdr) : RunR (List IndexEntry) :=
  match r.input with
  | b0 :: b1 :: b2 :: rest0 =>
    if [b0, b1, b2] = IndexVersion2 then
      match readSizeField { r with pos := r.pos + 3, input := rest0, indexVersion := 2 } with
      | .error e => .error e
      | .ok (sz, r2) =>
        match readIndexEntriesF fuel r2 ((r2.pos : Int) + sz - sizeFieldLen) 0 0 with
        | .error e => .error e
        | .ok (es, r3) => .ok (es, { r3 with index := es })
    else
      match rest0 with
      | b3 :: rest1 =>
        match readIndexEntriesF fuel
            { r with indexVersion := 1, pos := r.pos + 4, input := rest1 }
            (((r.pos + 4 : Nat) : Int) + (readLe32 b0 b1 b2 b3 : Int) - sizeFieldLen) 0 0 with
        | .error e => .error e
        | .ok (es, r3) => .ok (es, { r3 with index := es })
      | [] => .error (.eof, { r with indexVersion := 1 })
  | _ => .error (.eof, r)

/-- Whether a stream starts with the version-2 magic. -/
def isV2Stream (input : List Byte) : Bool :=
  match input with
  | b0 :: b1 :: b2 :: _ => [b0, b1, b2] = IndexVersion2
  | _ => false

/-- The `index_total_size` declared by a composite stream: the little-endian
32-bit value right after the magic (version 2) or at the start (version 1). -/
def declaredIndexSize (input : List Byte) : Nat :=
  match input with
  | b0 :: b1 :: b2 :: rest =>
    if [b0, b1, b2] = IndexVersion2 then
      match rest with
      | b3 :: b4 :: b5 :: b6 :: _ => readLe32 b3 b4 b5 b6
      | _ => 0
    else
      match rest with
      | b3 :: _ => readLe32 b0 b1 b2 b3
      | _ => 0
  | _ => 0

/-! ### The schema-driven writer (`legacy.go`, `writer_index.go`)

Go values are embedded as an explicit tree: strings, bools, integers,
floats (by their IEEE-754 bits), arrays/slices and structs whose fields
carry their parsed `rsf` struct tags.  The reflected type of a value is a
separate tree (`GoType`), mirroring `reflect.TypeOf` versus
`reflect.ValueOf` — an empty slice still has an element type. -/

/-- A parsed `rsf` struct tag: no tag at all, the ignore tag `-`, or a
name with optional `skip`, `fixed:N` and `index:field` parameters. -/
inductive FTag : Type where
  | notag
  | ignored
  | info (name : GoStr) (skipped : Bool) (fixed : Nat) (indexName : GoStr)

/-- The array-index key value captured from an element field (the Go
`any`-typed `indexVal`: nil, a string, or an int64). -/
inductive IdxVal : Type where
  | nilv
  | s (v : GoStr)
  | i (v : Int)

/-- The tag record (`tag`) threaded through the writer by pointer. -/
structure Tag where
  name : GoStr := []
  fixed : Nat := 0
  index : GoStr := []
  indexSz : Nat := 0
  indexType : Nat := 0
  indexVal : IdxVal := .nilv

/-- The zero tag each struct field and each walk starts from (`&tag{}`). -/
def tag0 : Tag := {}

/-- The reflected Go type of a schema value. -/
inductive GoType : Type where
  | str
  | boolT
  | intT
  | floatT
  | arr (elem : GoType)
  | strct (fields : List (FTag × GoType))

/-- Numeric `reflect.Kind` of a type (Bool 1, Int 2, Float64 14, Slice 23,
String 24, Struct 25), as written to the wire for array element types. -/
def GoType.kindCode : GoType → Nat
  | .str => kindString
  | .boolT => 1
  | .intT => 2
  | .floatT => 14
  | .arr _ => kindSlice
  | .strct _ => kindStruct

/-- A Go value as walked by the writer; struct fields carry their tags. -/
inductive TValue : Type where
  | vstr (s : GoStr)
  | vbool (b : Bool)
  | vint (i : Int)
  | vfloat (bits : Nat)
  | varr (elems : List TValue)
  | vstruct (fields : List (FTag × TValue))

/-- The three-way kind distinction `getTagInfo` makes on a field. -/
inductive FKind : Type where
  | fStr
  | fInt
  | fOther

/-- Kind of a value's field, as `reflect.Value.Kind` classifies it in the
switches of `writeStruct` and `getTagInfo`. -/
def TValue.fkind : TValue → FKind
  | .vstr _ => .fStr
  | .vint _ => .fInt
  | _ => .fOther

/-- Kind of a type's field, for the index-writer walk. -/
def GoType.fkind : GoType → FKind
  | .str => .fStr
  | .intT => .fInt
  | _ => .fOther

/-- The `fieldVal` the caller of `getTagInfo` computes in `writeStruct`:
the field's value for string and integer fields, nil otherwise. -/
def TValue.fieldVal : TValue → IdxVal
  | .vstr s => .s s
  | .vint i => .i i
  | _ => .nilv

/-- `getTagInfo`: report whether the field is skipped (ignored fields are),
produce the field's fresh tag record, and update the parent tag's key
metadata (`indexVal`, `indexSz`, `indexType`) when the parent's `index`
parameter names this field.  Untagged fields leave the parent alone. -/
def getTagInfo (ft : FTag) (k : FKind) (fieldVal : IdxVal) (tP : Tag) : Bool × Tag × Tag :=
  match ft with
  | .ignored => (true, tag0, tP)
  | .notag => (false, tag0, tP)
  | .info n sk fx ix =>
    let t : Tag := { name := n, fixed := fx, index := ix }
    if tP.index = n then
      let tP1 : Tag := { tP with indexVal := fieldVal }
      let tP2 : Tag :=
        match k with
        | .fStr => { tP1 with indexSz := fx, indexType := kindString }
        | .fInt => { tP1 with indexSz := sizeInt64, indexType := kindInt64 }
        | .fOther => tP1
      (sk, t, tP2)
    else (sk, t, tP)

/-- Whether a field's tag excludes it from serialization (`skip` or `-`). -/
def FTag.skips : FTag → Bool
  | .ignored => true
  | .info _ sk _ _ => sk
  | .notag => false

/-- Writer-side error conditions. -/
inductive WErr : Type where
  | sizeMismatch (want got : Nat)
  | invalidIndexFieldType
  | outOfFuel
  deriving DecidableEq, Repr

/-- `writeString` (record body): fixed-length when the tag declares
`fixed:N` (with the size-mismatch check), else variable-length. -/
def writeStringT (s : GoStr) (t : Tag) : Except WErr (List Byte) :=
  if 0 < t.fixed then
    if s.length = t.fixed then .ok s else .error (.sizeMismatch t.fixed s.length)
  else .ok (writeStringBytes s)

mutual

/-- `writeObject` (the record-body walk): dispatch on the value's kind.
The caller's tag is threaded through and returned, mirroring the `*tag`
pointer the Go code mutates.  The fuel only bounds recursion depth; every
claim about the writer is conditional on (or evaluates) a successful run. -/
def writeObjectB : Nat → TValue → Tag → Except WErr (List Byte × Tag)
  | 0, _, _ => .error .outOfFuel
  | fuel + 1, v, t =>
    match v with
    | .varr elems => writeArrayB fuel elems t
    | .vstruct fields => writeStructB fuel fields t
    | .vstr s =>
      match writeStringT s t with
      | .error e => .error e
      | .ok bs => .ok (bs, t)
    | .vbool b => .ok (writeBoolBytes b, t)
    | .vint i => .ok (writeInt64Bytes i, t)
    | .vfloat bits => .ok (writeFloatBytes bits, t)

/-- `writeStruct`: fields in declaration order; `getTagInfo` may update the
parent tag (array-index key capture); skipped fields contribute no bytes;
each field's own writes use its fresh tag, discarded afterwards. -/
def writeStructB : Nat → List (FTag × TValue) → Tag → Except WErr (List Byte × Tag)
  | 0, _, _ => .error .outOfFuel
  | _ + 1, [], tP => .ok ([], tP)
  | fuel + 1, (ft, fv) :: rest, tP =>
    match getTagInfo ft fv.fkind fv.fieldVal tP with
    | (skipped, t, tP1) =>
      if skipped then writeStructB fuel rest tP1
      else
        match writeObjectB fuel fv t with
        | .error e => .error e
        | .ok (bs, _) =>
          match writeStructB fuel rest tP1 with
          | .error e => .error e
          | .ok (bsRest, tP2) => .ok (bs ++ bsRest, tP2)

/-- The element loop of `writeArray`: write each element with the array's
own tag (whose key metadata the element's `getTagInfo` calls set); for an
indexed array, append the captured key (a fixed string of `indexSz` bytes
or a 10-byte int64) and the element's byte length (`bufLen − lastLen`) to
the key table.  Returns (element bytes, key-table bytes, final tag). -/
def writeArrLoop : Nat → List TValue → Tag → Except WErr (List Byte × List Byte × Tag)
  | 0, _, _ => .error .outOfFuel
  | _ + 1, [], t => .ok ([], [], t)
  | fuel + 1, el :: els, t =>
    match writeObjectB fuel el t with
    | .error e => .error e
    | .ok (bs, t1) =>
      if t1.index ≠ [] then
        match
          (match t1.indexVal with
           | .s v =>
             if v.length = t1.indexSz then .ok v
             else .error (.sizeMismatch t1.indexSz v.length)
           | .i v => .ok (writeInt64Bytes v)
           | .nilv => .error .invalidIndexFieldType : Except WErr (List Byte)) with
        | .error e => .error e
        | .ok kb =>
          match writeArrLoop fuel els t1 with
          | .error e => .error e
          | .ok (bsRest, ixRest, t2) =>
            .ok (bs ++ bsRest, (kb ++ le32 bs.length) ++ ixRest, t2)
      else
        match writeArrLoop fuel els t1 with
        | .error e => .error e
        | .ok (bsRest, ixRest, t2) => .ok (bs ++ bsRest, ixRest, t2)

/-- `writeArray`: after the element loop, emit the 4-byte total size
(4 + 4 + key-table bytes + element bytes, the accumulated `totalSz`), the
4-byte element count, the key table when indexed, then the elements. -/
def writeArrayB : Nat → List TValue → Tag → Except WErr (List Byte × Tag)
  | 0, _, _ => .error .outOfFuel
  | fuel + 1, elems, t =>
    match writeArrLoop fuel elems t with
    | .error e => .error e
    | .ok (snap, snapIx, t1) =>
      .ok (le32 (snap.length + snapIx.length + sizeFieldLen + sizeFieldLen) ++
           le32 elems.length ++ snapIx ++ snap, t1)

end

/-- Subfield count an array-of-structs descriptor entry declares: the
element fields that are neither ignored nor skipped. -/
def countSubfields (fields : List (FTag × GoType)) : Nat :=
  (fields.filter fun p => !p.1.skips).length

mutual

/-- Modelled from the spec: `writeIndexObject`, the version-aware schema
descriptor writer, whose current Go source is not under src/ (only older
revisions of `writer_index.go` and the tests that pin its output are).
Layout per spec §4.3 and the byte expectations of `writer_test.go`: each
entry is `var_string(name)` then `size(type_code)`; FIXED_STR entries
(version 2) append `size(fixed_size)`, while version 1 marks every string
variable-length; ARRAY entries append, in version 2, `bool(indexed)`, the
key type and key size when indexed, `size(element_kind)`,
`size(subfield_count)` and then the subfield entries — version 1 appends
only `size(subfield_count)` and the subfields.  The key metadata is the
tag state after walking the element struct's tags with `getTagInfo`. -/
def writeIndexObjectM : Nat → GoType → Tag → Nat → Except WErr (List Byte × Tag)
  | 0, _, _, _ => .error .outOfFuel
  | fuel + 1, ty, t, version =>
    match ty with
    | .arr elem =>
      match
        (match elem with
         | .strct fields => writeIndexStructM fuel fields t version
         | _ => .ok ([], t) : Except WErr (List Byte × Tag)) with
      | .error e => .error e
      | .ok (subBytes, t1) =>
        let count := match elem with
          | .strct fields => countSubfields fields
          | _ => 0
        if 2 ≤ version then
          .ok (writeStringBytes t.name ++ le32 FieldTypeArray ++
               writeBoolBytes (decide (t1.index ≠ [])) ++
               (if t1.index ≠ [] then le32 t1.indexType ++ le32 t1.indexSz else []) ++
               le32 elem.kindCode ++ le32 count ++ subBytes, t1)
        else
          .ok (writeStringBytes t.name ++ le32 FieldTypeArray ++ le32 count ++ subBytes, t1)
    | .strct fields => writeIndexStructM fuel fields t version
    | .str =>
      if 2 ≤ version ∧ 0 < t.fixed then
        .ok (writeStringBytes t.name ++ le32 FieldTypeFixedStr ++ le32 t.fixed, t)
      else .ok (writeStringBytes t.name ++ le32 FieldTypeVarStr, t)
    | .boolT => .ok (writeStringBytes t.name ++ le32 FieldTypeBool, t)
    | .intT => .ok (writeStringBytes t.name ++ le32 FieldTypeInt64, t)
    | .floatT => .ok (writeStringBytes t.name ++ le32 FieldTypeFloat, t)

/-- Modelled from the spec: `writeIndexStruct` (matching the revision under
src/, which is unchanged on this point): fields in declaration order,
skipped and ignored fields omitted, `getTagInfo` run for every field (with
an empty `fieldVal`) so the parent array tag still captures key metadata
from a skipped key field. -/
def writeIndexStructM : Nat → List (FTag × GoType) → Tag → Nat → Except WErr (List Byte × Tag)
  | 0, _, _, _ => .error .outOfFuel
  | _ + 1, [], tP, _ => .ok ([], tP)
  | fuel + 1, (ft, fty) :: rest, tP, version =>
    match getTagInfo ft fty.fkind (.s []) tP with
    | (skipped, t, tP1) =>
      if skipped then writeIndexStructM fuel rest tP1 version
      else
        match writeIndexObjectM fuel fty t version with
        | .error e => .error e
        | .ok (bs, _) =>
          match writeIndexStructM fuel rest tP1 version with
          | .error e => .error e
          | .ok (bsRest, tP2) => .ok (bs ++ bsRest, tP2)

end

/-- The writer state (`rsfWriter`): format version, object counter (`pos`),
and the bytes written to the sink so far. -/
structure WState where
  version : Nat
  pos : Nat
  out : List Byte

/-- Whether a reflected type is a struct
(`reflect.TypeOf(v).Kind() == reflect.Struct`). -/
def GoType.isStrct : GoType → Bool
  | .strct _ => true
  | _ => false

/-- `WriteObject`: when the object counter is zero and the value is a
struct, first the version magic (version 2 only) and the schema index with
its 4-byte size prefix (which counts itself but not the magic); then the
record frame (4-byte size including itself, then the body); finally the
object counter is incremented.  Returns the total bytes written.  (On an
error nothing is reported written; the partial output a failing Go call may
already have produced is not modelled, as no claim depends on it.) -/
def writeObjectFull (fuel : Nat) (w : WState) (ty : GoType) (v : TValue) :
    Except WErr (Nat × WState) :=
  match
    (if w.pos = 0 ∧ ty.isStrct then
      match writeIndexObjectM fuel ty tag0 w.version with
      | .error e => .error e
      | .ok (ixb, _) =>
        .ok ((if 2 ≤ w.version then IndexVersion2 else []) ++
             le32 (ixb.length + sizeFieldLen) ++ ixb)
    else .ok [] : Except WErr (List Byte)) with
  | .error e => .error e
  | .ok pre =>
    match writeObjectB fuel v tag0 with
    | .error e => .error e
    | .ok (body, _) =>
      .ok (pre.length + sizeFieldLen + body.length,
           { w with pos := w.pos + 1,
                    out := w.out ++ pre ++ le32 (body.length + sizeFieldLen) ++ body })

/-- A sequence of `WriteObject` calls on a single writer, failing fast. -/
def runWrites (fuel : Nat) (w : WState) : List (GoType × TValue) → Except WErr WState
  | [] => .ok w
  | (ty, v) :: rest =>
    match writeObjectFull fuel w ty v with
    | .error e => .error e
    | .ok (_, w1) => runWrites fuel w1 rest

/-! ### The reference composite (`writer_test.go`)

The concrete schema and values of `TestWriteObjectWithArrayIndexNilSubArray`
(empty list, 157 bytes) and `TestWriteObjectWithArrayIndex` (three-element
list, 338 bytes), together with the exact output bytes those tests pin. -/

/-- Element type of the 157-byte scenario: `snap` with a skipped fixed
10-byte `date` key, a variable `name`, a bool `verified` and an ignored
field. -/
def snapTyA : GoType := .strct [
  (.info (gostr "date") true 10 [], .str),
  (.info (gostr "name") false 0 [], .str),
  (.info (gostr "verified") false 0 [], .boolT),
  (.ignored, .str)]

/-- Element type of the 338-byte scenario: `snap` with an extra
`aliases []string` field. -/
def snapTyB : GoType := .strct [
  (.info (gostr "date") true 10 [], .str),
  (.info (gostr "name") false 0 [], .str),
  (.info (gostr "verified") false 0 [], .boolT),
  (.ignored, .str),
  (.info (gostr "aliases") false 0 [], .arr .str)]

/-- Top-level type of the 157-byte scenario. -/
def refTyA : GoType := .strct [
  (.ignored, .str),
  (.info (gostr "company") false 0 [], .str),
  (.info (gostr "ready") false 0 [], .boolT),
  (.info (gostr "list") false 0 (gostr "date"), .arr snapTyA),
  (.info (gostr "age") false 0 [], .intT),
  (.info (gostr "rating") false 0 [], .floatT)]

/-- Top-level type of the 338-byte scenario. -/
def refTyB : GoType := .strct [
  (.ignored, .str),
  (.info (gostr "company") false 0 [], .str),
  (.info (gostr "ready") false 0 [], .boolT),
  (.info (gostr "list") false 0 (gostr "date"), .arr snapTyB),
  (.info (gostr "age") false 0 [], .intT),
  (.info (gostr "rating") false 0 [], .floatT)]

/-- An element value of the 338-byte scenario. -/
def snapValB (date name : String) (verified : Bool) (aliases : List String) : TValue :=
  .vstruct [
    (.info (gostr "date") true 10 [], .vstr (gostr date)),
    (.info (gostr "name") false 0 [], .vstr (gostr name)),
    (.info (gostr "verified") false 0 [], .vbool verified),
    (.ignored, .vstr []),
    (.info (gostr "aliases") false 0 [], .varr (aliases.map fun a => .vstr (gostr a)))]

/-- IEEE-754 bits of the rating 92.689 (little-endian bytes
6a bc 74 93 18 2c 57 40 in the pinned output). -/
def ratingBits : Nat := 0x40572C189374BC6A

/-- Top-level value of the 157-byte scenario: `{company: "posit",
ready: true, list: [], age: 55, rating: 92.689}`. -/
def refValA : TValue := .vstruct [
  (.ignored, .vstr []),
  (.info (gostr "company") false 0 [], .vstr (gostr "posit")),
  (.info (gostr "ready") false 0 [], .vbool true),
  (.info (gostr "list") false 0 (gostr "date"), .varr []),
  (.info (gostr "age") false 0 [], .vint 55),
  (.info (gostr "rating") false 0 [], .vfloat ratingBits)]

/-- Top-level value of the 338-byte scenario: the same composite with the
three reference list elements. -/
def refValB : TValue := .vstruct [
  (.ignored, .vstr []),
  (.info (gostr "company") false 0 [], .vstr (gostr "posit")),
  (.info (gostr "ready") false 0 [], .vbool true),
  (.info (gostr "list") false 0 (gostr "date"), .varr [
    snapValB "2020-10-01" "From 2020" false ["from 2020", "before 2021"],
    snapValB "2021-03-21" "From 2021" true [],
    snapValB "2022-12-15" "this is from 2022" true ["from 2022"]]),
  (.info (gostr "age") false 0 [], .vint 55),
  (.info (gostr "rating") false 0 [], .vfloat ratingBits)]

/-- The 157 output bytes pinned by `TestWriteObjectWithArrayIndexNilSubArray`. -/
def refBytes157 : List Byte :=
  [0, 8, 50, 114, 0, 0, 0, 7, 0, 0, 0, 99, 111, 109, 112, 97,
   110, 121, 1, 0, 0, 0, 5, 0, 0, 0, 114, 101, 97, 100, 121, 3,
   0, 0, 0, 4, 0, 0, 0, 108, 105, 115, 116, 4, 0, 0, 0, 1,
   24, 0, 0, 0, 10, 0, 0, 0, 25, 0, 0, 0, 2, 0, 0, 0,
   4, 0, 0, 0, 110, 97, 109, 101, 1, 0, 0, 0, 8, 0, 0, 0,
   118, 101, 114, 105, 102, 105, 101, 100, 3, 0, 0, 0, 3, 0, 0, 0,
   97, 103, 101, 7, 0, 0, 0, 6, 0, 0, 0, 114, 97, 116, 105, 110,
   103, 6, 0, 0, 0, 40, 0, 0, 0, 5, 0, 0, 0, 112, 111, 115,
   105, 116, 1, 8, 0, 0, 0, 0, 0, 0, 0, 110, 0, 0, 0, 0,
   0, 0, 0, 0, 0, 106, 188, 116, 147, 24, 44, 87, 64]
/-- The 338 output bytes pinned by `TestWriteObjectWithArrayIndex`. -/
def refBytes338 : List Byte :=
  [0, 8, 50, 138, 0, 0, 0, 7, 0, 0, 0, 99, 111, 109, 112, 97,
   110, 121, 1, 0, 0, 0, 5, 0, 0, 0, 114, 101, 97, 100, 121, 3,
   0, 0, 0, 4, 0, 0, 0, 108, 105, 115, 116, 4, 0, 0, 0, 1,
   24, 0, 0, 0, 10, 0, 0, 0, 25, 0, 0, 0, 3, 0, 0, 0,
   4, 0, 0, 0, 110, 97, 109, 101, 1, 0, 0, 0, 8, 0, 0, 0,
   118, 101, 114, 105, 102, 105, 101, 100, 3, 0, 0, 0, 7, 0, 0, 0,
   97, 108, 105, 97, 115, 101, 115, 4, 0, 0, 0, 0, 24, 0, 0, 0,
   0, 0, 0, 0, 3, 0, 0, 0, 97, 103, 101, 7, 0, 0, 0, 6,
   0, 0, 0, 114, 97, 116, 105, 110, 103, 6, 0, 0, 0, 197, 0, 0,
   0, 5, 0, 0, 0, 112, 111, 115, 105, 116, 1, 165, 0, 0, 0, 3,
   0, 0, 0, 50, 48, 50, 48, 45, 49, 48, 45, 48, 49, 50, 0, 0,
   0, 50, 48, 50, 49, 45, 48, 51, 45, 50, 49, 22, 0, 0, 0, 50,
   48, 50, 50, 45, 49, 50, 45, 49, 53, 43, 0, 0, 0, 9, 0, 0,
   0, 70, 114, 111, 109, 32, 50, 48, 50, 48, 0, 36, 0, 0, 0, 2,
   0, 0, 0, 9, 0, 0, 0, 102, 114, 111, 109, 32, 50, 48, 50, 48,
   11, 0, 0, 0, 98, 101, 102, 111, 114, 101, 32, 50, 48, 50, 49, 9,
   0, 0, 0, 70, 114, 111, 109, 32, 50, 48, 50, 49, 1, 8, 0, 0,
   0, 0, 0, 0, 0, 17, 0, 0, 0, 116, 104, 105, 115, 32, 105, 115,
   32, 102, 114, 111, 109, 32, 50, 48, 50, 50, 1, 21, 0, 0, 0, 1,
   0, 0, 0, 9, 0, 0, 0, 102, 114, 111, 109, 32, 50, 48, 50, 50,
   110, 0, 0, 0, 0, 0, 0, 0, 0, 0, 106, 188, 116, 147, 24, 44,
   87, 64]

/-! ### Record-frame characterizations for the write lifecycle -/

/-- The record frame one `WriteObject` call emits for a value: 4-byte size
including itself, then the serialized body. -/
def recordFrame (fuel : Nat) (v : TValue) : Except WErr (List Byte) :=
  match writeObjectB fuel v tag0 with
  | .error e => .error e
  | .ok (body, _) => .ok (le32 (body.length + sizeFieldLen) ++ body)

/-- The concatenation of the record frames of a value sequence. -/
def framesOf (fuel : Nat) : List (GoType × TValue) → Except WErr (List Byte)
  | [] => .ok []
  | (_, v) :: rest =>
    match recordFrame fuel v with
    | .error e => .error e
    | .ok f =>
      match framesOf fuel rest with
      | .error e => .error e
      | .ok fs => .ok (f ++ fs)

/-- The index block the first call on a composite emits: the magic for
version 2, the 4-byte index size (counting itself, not the magic), and the
descriptor tree. -/
def indexBlock (fuel : Nat) (ver : Nat) (ty : GoType) : Except WErr (List Byte) :=
  match writeIndexObjectM fuel ty tag0 ver with
  | .error e => .error e
  | .ok (ixb, _) =>
    .ok ((if 2 ≤ ver then IndexVersion2 else []) ++ le32 (ixb.length + sizeFieldLen) ++ ixb)

/-- Subfield names of the entry named "list" in a parsed schema index. -/
def listSubfieldNames (es : List IndexEntry) : List GoStr :=
  match es.find? (fun e => e.fieldName == gostr "list") with
  | some e => e.subfields.map IndexEntry.fieldName
  | none => []

/-! ### Well-formed field encodings and field-value reading

For the skip-fidelity claim, a record body is a concatenation of per-field
byte strings, each well-formed for its schema entry; reading a field uses
the reader primitive its type code selects. -/

/-- A field value as observed by the scalar readers (arrays: the payload
behind the total-size prefix, as raw bytes). -/
inductive FVal : Type where
  | str (s : GoStr)
  | b (x : Bool)
  | i (x : Int)
  | f (bits : Nat)
  | raw (bs : List Byte)
  deriving DecidableEq, Repr

/-- Read the field at the cursor with the reader primitive its schema entry
selects: read_string, read_fixed_string, read_bool, read_int, read_float,
or (ARRAY) the 4-byte total size then the remaining payload. -/
def readFieldValue (e : IndexEntry) (r : Rdr) : RunR FVal :=
  if e.fieldType = FieldTypeVarStr then
    match readStringField r with
    | .error er => .error er
    | .ok (s, r1) => .ok (.str s, r1)
  else if e.fieldType = FieldTypeFixedStr then
    match readFixedStringField e.fieldSize r with
    | .error er => .error er
    | .ok (s, r1) => .ok (.str s, r1)
  else if e.fieldType = FieldTypeBool then
    match readBoolField r with
    | .error er => .error er
    | .ok (x, r1) => .ok (.b x, r1)
  else if e.fieldType = FieldTypeInt64 then
    match readIntField r with
    | .error er => .error er
    | .ok (x, r1) => .ok (.i x, r1)
  else if e.fieldType = FieldTypeFloat then
    match readFloatField r with
    | .error er => .error er
    | .ok (x, r1) => .ok (.f x, r1)
  else if e.fieldType = FieldTypeArray then
    match readSizeField r with
    | .error er => .error er
    | .ok (sz, r1) =>
      if sz < sizeFieldLen then .error (.negativeDiscard, r1)
      else
        match readFixedStringField (sz - sizeFieldLen) r1 with
        | .error er => .error er
        | .ok (bs, r2) => .ok (.raw bs, r2)
  else .error (.unknownFieldType e.fieldType, r)

/-- Read every field of a record sequentially in declaration order. -/
def readSeq : List IndexEntry → Rdr → RunR (List FVal)
  | [], r => .ok ([], r)
  | e :: es, r =>
    match readFieldValue e r with
    | .error er => .error er
    | .ok (v, r1) =>
      match readSeq es r1 with
      | .error er => .error er
      | .ok (vs, r2) => .ok (v :: vs, r2)

/-- Well-formed on-wire bytes for one field of the given schema entry:
FIXED_STR occupies its declared size, VAR_STR a 4-byte length then that
many bytes, BOOL one byte, INT64 ten, FLOAT eight, and ARRAY a 4-byte total
size (counting itself) then the rest of its payload. -/
def WFfield (e : IndexEntry) (bs : List Byte) : Prop :=
  (e.fieldType = FieldTypeFixedStr ∧ bs.length = e.fieldSize) ∨
  (e.fieldType = FieldTypeVarStr ∧
    ∃ data : List Byte, bs = le32 data.length ++ data ∧ data.length < 2 ^ 32) ∨
  (e.fieldType = FieldTypeBool ∧ bs.length = 1) ∨
  (e.fieldType = FieldTypeInt64 ∧ bs.length = 10) ∨
  (e.fieldType = FieldTypeFloat ∧ bs.length = 8) ∨
  (e.fieldType = FieldTypeArray ∧
    ∃ body : List Byte, bs = le32 (4 + body.length) ++ body ∧ 4 + body.length < 2 ^ 32)

/-- The value a well-formed field encoding denotes. -/
def decodeField (e : IndexEntry) (bs : List Byte) : FVal :=
  if e.fieldType = FieldTypeVarStr then .str (bs.drop 4)
  else if e.fieldType = FieldTypeFixedStr then .str bs
  else if e.fieldType = FieldTypeBool then .b (bs.getD 0 0 == 1)
  else if e.fieldType = FieldTypeInt64 then .i (varintDec bs)
  else if e.fieldType = FieldTypeFloat then .f (readLe64 bs)
  else if e.fieldType = FieldTypeArray then .raw (bs.drop 4)
  else .raw bs

/-- Total length of the field encodings with positions in `[a, b)`. -/
def sumLen (encs : List (List Byte)) (a b : Nat) : Nat :=
  (((encs.drop a).take (b - a)).map List.length).sum

/-! ### A concrete schema for the nested-path counterexample -/

/-- A two-field schema: a top-level VAR_STR `a`, then an array `list` of
structs with a VAR_STR `x` and a BOOL `y`. -/
def cexSchema : List IndexEntry :=
  [.mk (gostr "a") FieldTypeVarStr 0 false 0 0 0 [],
   .mk (gostr "list") FieldTypeArray 0 false 0 0 0
     [.mk (gostr "x") FieldTypeVarStr 0 false 0 0 0 [],
      .mk (gostr "y") FieldTypeBool 0 false 0 0 0 []]]

/-- A record body under `cexSchema`: `a = "A"`, and `list` one element with
`x = "B"`, `y = true` (array frame: size 14, count 1, element bytes). -/
def cexBody : List Byte :=
  [1, 0, 0, 0, 65] ++ [14, 0, 0, 0, 1, 0, 0, 0, 1, 0, 0, 0, 66, 1]

/-- A three-field all-BOOL schema used to exercise the top-level
navigation. -/
def wSchema : List IndexEntry :=
  [.mk (gostr "u") FieldTypeBool 0 false 0 0 0 [],
   .mk (gostr "v") FieldTypeBool 0 false 0 0 0 [],
   .mk (gostr "w") FieldTypeBool 0 false 0 0 0 []]

/-! ### Varint round-trip lemmas -/

theorem le32_length (n : Nat) : (le32 n).length = 4 := rfl

theorem le64_length (n : Nat) : (le64 n).length = 8 := rfl

/-- Reading back the four bytes of `le32 n` recovers `n` modulo `2 ^ 32`,
the Go `uint32` truncation. -/
theorem readLe32_le32 (n : Nat) :
    readLe32 (n % 256) (n / 256 % 256) (n / 65536 % 256) (n / 16777216 % 256) = n % 2 ^ 32 := by
  simp only [readLe32, Nat.mod_mod_of_dvd, Nat.mod_mod]
  omega


theorem putUvarintF_length_le (f : Nat) : ∀ u : Nat, (putUvarintF f u).length ≤ f := by
  induction f with
  | zero => intro u; simp [putUvarintF]
  | succ k ih =>
    intro u
    rw [putUvarintF]
    by_cases h : u < 128
    · simp [h]
    · simp only [h, if_neg, not_false_iff, List.length_cons]
      have := ih (u / 128)
      omega

theorem uvarintDecAux_putUvarintF (f : Nat) :
    ∀ (u s x i : Nat), i ≤ 9 → u < 2 ^ (64 - 7 * i) → 10 ≤ f + i → ∀ rest : List Byte,
      uvarintDecAux (putUvarintF f u ++ rest) s x i = some (x + u * 2 ^ s) := by
  induction f with
  | zero =>
    intro u s x i hi _ hf rest
    omega
  | succ k ih =>
    intro u s x i hi hu hf rest
    rw [putUvarintF]
    by_cases h : u < 128
    · simp only [h, if_pos, List.cons_append, List.nil_append, uvarintDecAux]
      have hu256 : u % 256 = u := Nat.mod_eq_of_lt (by omega)
      rw [hu256]
      simp only [h, if_pos]
      have hnot : ¬(9 < i ∨ (i = 9 ∧ 1 < u)) := by
        rintro (h9 | ⟨h9, h1⟩)
        · omega
        · subst h9; norm_num at hu; omega
      simp [hnot]
    · simp only [h, if_neg, not_false_iff, List.cons_append, uvarintDecAux]
      have hb : (u % 128 + 128) % 256 = u % 128 + 128 := by omega
      rw [hb]
      have hbge : ¬(u % 128 + 128 < 128) := by omega
      simp only [hbge, if_neg]
      have hmod : (u % 128 + 128) % 128 = u % 128 := by omega
      rw [hmod]
      have hi' : i + 1 ≤ 9 := by
        rcases Nat.lt_or_ge i 9 with h9 | h9
        · omega
        · exfalso
          have : i = 9 := by omega
          subst this
          norm_num at hu
          omega
      have hu' : u / 128 < 2 ^ (64 - 7 * (i + 1)) := by
        have h7 : 64 - 7 * i = 64 - 7 * (i + 1) + 7 := by omega
        rw [h7, pow_add] at hu
        rw [Nat.div_lt_iff_lt_mul (by norm_num : 0 < 128)]
        norm_num at hu
        omega
      rw [ih (u / 128) (s + 7) _ (i + 1) hi' hu' (by omega) rest]
      have hsplit : u % 128 * 2 ^ s + u / 128 * 2 ^ (s + 7) = u * 2 ^ s := by
        have h2 : (2 : Nat) ^ (s + 7) = 2 ^ s * 128 := by rw [pow_add]; norm_num
        rw [h2, show u / 128 * (2 ^ s * 128) = u / 128 * 128 * 2 ^ s from by ring,
           ← Nat.add_mul]
        congr 1
        omega
      rw [add_assoc, hsplit]
      simp

theorem uvarintDec_putUvarint (u : Nat) (hu : u < 2 ^ 64) (rest : List Byte) :
    uvarintDec (putUvarint u ++ rest) = u := by
  unfold uvarintDec putUvarint
  rw [uvarintDecAux_putUvarintF 10 u 0 0 0 (by omega) (by simpa using hu) (by omega) rest]
  simp

theorem zigzag_lt (v : Int) (hlo : -(2 ^ 63) ≤ v) (hhi : v < 2 ^ 63) :
    zigzag v < 2 ^ 64 := by
  unfold zigzag
  split <;> omega

theorem varintDec_zigzag (v : Int) (hlo : -(2 ^ 63) ≤ v) (hhi : v < 2 ^ 63)
    (rest : List Byte) : varintDec (putUvarint (zigzag v) ++ rest) = v := by
  unfold varintDec
  rw [uvarintDec_putUvarint _ (zigzag_lt v hlo hhi) rest]
  unfold zigzag
  by_cases h : 0 ≤ v
  · simp only [h, if_pos]
    have h2 : (2 * v).toNat % 2 = 0 := by omega
    simp only [h2]
    norm_num
    omega
  · simp only [h, if_neg, not_false_iff]
    have h2 : (-2 * v - 1).toNat % 2 = 1 := by omega
    simp only [h2]
    norm_num
    omega

theorem writeInt64Bytes_length (v : Int) : (writeInt64Bytes v).length = 10 := by
  unfold writeInt64Bytes padRight sizeInt64 putUvarint
  have hlen := putUvarintF_length_le 10 (zigzag v)
  simp only [List.length_append, List.length_replicate]
  omega

theorem varintDec_writeInt64Bytes (v : Int) (hlo : -(2 ^ 63) ≤ v) (hhi : v < 2 ^ 63) :
    varintDec (writeInt64Bytes v) = v := by
  unfold writeInt64Bytes padRight
  exact varintDec_zigzag v hlo hhi _

/-! ### Claim C7: boolean decoding -/

/-- Claim C7, counterexample: the claim says any non-zero byte is read as
true, but reading a bool from a stream whose next byte is 2 yields false
(the source compares the byte with 1, not with 0). -/
theorem readBool_nonzero_not_true_counterexample :
    readBoolField ⟨0, [], [], [2], 0⟩ = .ok (false, ⟨1, [], [], [], 0⟩) ∧ false ≠ true := by
  exact ⟨rfl, by decide⟩

/-- Claim C7, amended: read_bool consumes exactly one byte and returns true
exactly when that byte equals 1 (so a bool written by write_bool round-trips,
but a non-zero byte other than 1 reads as false). -/
theorem readBool_one_byte_eq_one (b : Byte) (rest : List Byte) (p : Nat)
    (ix : List IndexEntry) (atp : List GoStr) (ver : Nat) (x : Bool) :
    readBoolField ⟨p, ix, atp, b :: rest, ver⟩ =
      .ok (b == 1, ⟨p + 1, ix, atp, rest, ver⟩) ∧
    readBoolField ⟨p, ix, atp, writeBoolBytes x ++ rest, ver⟩ =
      .ok (x, ⟨p + 1, ix, atp, rest, ver⟩) := by
  refine ⟨rfl, ?_⟩
  cases x <;> rfl

/-! ### Claim C8: int64 fixed-width round-trip -/

/-- Claim C8: for every int64 value v, write_int64 emits exactly 10 bytes
regardless of magnitude, and read_int applied to those bytes returns v and
advances the cursor by exactly 10. -/
theorem int64_fixed_width_roundtrip (v : Int) (hlo : -(2 ^ 63) ≤ v) (hhi : v < 2 ^ 63)
    (p : Nat) (ix : List IndexEntry) (atp : List GoStr) (ver : Nat) (rest : List Byte) :
    (writeInt64Bytes v).length = 10 ∧
    readIntField ⟨p, ix, atp, writeInt64Bytes v ++ rest, ver⟩ =
      .ok (v, ⟨p + 10, ix, atp, rest, ver⟩) := by
  have hlen := writeInt64Bytes_length v
  refine ⟨hlen, ?_⟩
  unfold readIntField
  rw [if_pos (by simp [sizeInt64, hlen])]
  have htake : (writeInt64Bytes v ++ rest).take sizeInt64 = writeInt64Bytes v :=
    List.take_left' hlen
  have hdrop : (writeInt64Bytes v ++ rest).drop sizeInt64 = rest :=
    List.drop_left' hlen
  rw [htake, hdrop, varintDec_writeInt64Bytes v hlo hhi]
  rfl

/-- Claim C8, witness: the round-trip theorem applied at the concrete value
-456 with a non-empty remainder of the stream. -/
theorem int64_fixed_width_roundtrip_witness :
    -(2 ^ 63) ≤ (-456 : Int) ∧ (-456 : Int) < 2 ^ 63 ∧
    ((writeInt64Bytes (-456)).length = 10 ∧
      readIntField ⟨3, [], [], writeInt64Bytes (-456) ++ [7, 7], 0⟩ =
        .ok (-456, ⟨3 + 10, [], [], [7, 7], 0⟩)) :=
  ⟨by norm_num, by norm_num,
    int64_fixed_width_roundtrip (-456) (by norm_num) (by norm_num) 3 [] [] 0 [7, 7]⟩

/-! ### Claim C4: NoSuchField is non-fatal and atomic -/

/-- Claim C4: calling advance_to with a path whose target is absent from the
wire schema fails with the distinguishable NoSuchField error, and the reader
state carried by the error is the unmodified original — in particular both
the byte cursor `pos` and the logical position path `atp` are unchanged,
since both `entrySet` lookups run before any skipping touches the stream. -/
theorem advanceTo_noSuchField_atomic (r : Rdr) (fieldNames : List GoStr)
    (habs : entrySet r.index fieldNames = none) :
    advanceTo fieldNames r = .error (.noSuchField, r) := by
  unfold advanceTo
  cases h1 : entrySet r.index
      (if fieldNames.length < r.atp.length then r.atp.take fieldNames.length
       else if r.atp.length < fieldNames.length then r.atp ++ [Top]
       else r.atp) with
  | none => simp only [h1]
  | some p =>
    obtain ⟨fieldList, fromPos⟩ := p
    simp only [h1, habs]

/-- Claim C4, witness: a reader that has read a one-field index; probing for
the absent field "nothere" fails with NoSuchField and returns the reader
intact. -/
theorem advanceTo_noSuchField_atomic_witness :
    entrySet [IndexEntry.mk (gostr "company") FieldTypeVarStr 0 false 0 0 0 []]
        [gostr "nothere"] = none ∧
    advanceTo [gostr "nothere"]
        ⟨117, [IndexEntry.mk (gostr "company") FieldTypeVarStr 0 false 0 0 0 []],
         [], [9, 9, 9], 2⟩ =
      .error (.noSuchField,
        ⟨117, [IndexEntry.mk (gostr "company") FieldTypeVarStr 0 false 0 0 0 []],
         [], [9, 9, 9], 2⟩) :=
  ⟨rfl, advanceTo_noSuchField_atomic _ _ rfl⟩

/-! ### Claim C5: cursor advance of read_index -/

/-- Success of the top-level (limit 0) entry loop only ever arises from
reaching `finalPos` exactly. -/
theorem readIndexEntriesF_limit0_final (fuel : Nat) :
    ∀ (r : Rdr) (finalPos : Int) (pass : Nat) (es : List IndexEntry) (r' : Rdr),
      readIndexEntriesF fuel r finalPos 0 pass = .ok (es, r') → (r'.pos : Int) = finalPos := by
  induction fuel with
  | zero =>
    intro r fp pass es r' h
    simp [readIndexEntriesF] at h
  | succ k ih =>
    intro r fp pass es r' h
    rw [readIndexEntriesF] at h
    rw [if_neg (by simp : ¬((0 : Nat) ≠ 0 ∧ pass = 0))] at h
    by_cases hpos : (r.pos : Int) = fp
    · rw [if_pos hpos] at h
      cases h
      exact hpos
    · rw [if_neg hpos] at h
      split at h
      · cases h
      · split at h
        · cases h
        · split at h
          · cases h
          · rename_i rest r3 heq3
            cases h
            exact ih _ fp (pass + 1) rest r' heq3

/-- Claim C5, counterexample: the claim asserts read_index advances by
exactly index_total_size for version-2 streams as well, but on the minimal
version-2 stream (magic, then declared size 4, an empty index) read_index
succeeds having advanced the cursor 7 bytes — the declared size 4 plus the
3 magic bytes which the size prefix does not include. -/
theorem readIndex_v2_advance_counterexample :
    readIndexF 2 ⟨0, [], [], [0x00, 0x08, 0x32, 4, 0, 0, 0], 0⟩ =
      .ok ([], ⟨7, [], [], [], 2⟩) ∧
    declaredIndexSize [0x00, 0x08, 0x32, 4, 0, 0, 0] = 4 ∧ (7 : Nat) ≠ 4 :=
  ⟨rfl, rfl, by decide⟩

/-- Claim C5, amended: whenever read_index succeeds on a composite stream,
the cursor advances by exactly index_total_size bytes (the 4-byte size
prefix that includes itself) on a version-1 stream, and by exactly
index_total_size plus the 3 magic bytes (which the size prefix does not
include) on a version-2 stream. -/
theorem readIndex_advance_by_declared_size (fuel : Nat) (r : Rdr)
    (es : List IndexEntry) (r' : Rdr) (hok : readIndexF fuel r = .ok (es, r')) :
    r'.pos = r.pos + (if isV2Stream r.input then 3 + declaredIndexSize r.input
                      else declaredIndexSize r.input) := by
  unfold readIndexF at hok
  split at hok
  · rename_i b0 b1 b2 rest0 hin
    split at hok
    · rename_i hv2
      split at hok
      · cases hok
      · rename_i sz r2 hsz
        split at hok
        · cases hok
        · rename_i es3 r3 hent
          cases hok
          have hfin := readIndexEntriesF_limit0_final fuel r2 _ 0 _ _ hent
          unfold readSizeField at hsz
          split at hsz
          · rename_i c0 c1 c2 c3 rest1 hrest
            simp only [Except.ok.injEq, Prod.mk.injEq] at hsz
            obtain ⟨hszv, hr2⟩ := hsz
            simp only at hrest
            rw [hin]
            simp only [isV2Stream, declaredIndexSize, hv2, if_true, hrest]
            have hpos2 : r2.pos = r.pos + 3 + 4 := by rw [← hr2]
            have hszval : sz = readLe32 c0 c1 c2 c3 := hszv.symm
            simp only [sizeFieldLen] at hfin
            show r3.pos = r.pos + (3 + readLe32 c0 c1 c2 c3)
            omega
          · cases hsz
    · rename_i hv2
      split at hok
      · rename_i b3 rest1
        split at hok
        · cases hok
        · rename_i es3 r3 hent
          cases hok
          have hfin := readIndexEntriesF_limit0_final fuel _ _ 0 _ _ hent
          rw [hin]
          simp only [isV2Stream, declaredIndexSize, hv2, if_false]
          simp only [sizeFieldLen] at hfin
          show r3.pos = r.pos + readLe32 b0 b1 b2 b3
          omega
      · cases hok
  · cases hok

/-- Claim C5 (amended), witness: the theorem applied to a concrete minimal
version-2 stream, where the cursor lands at 3 + 4. -/
theorem readIndex_advance_by_declared_size_witness :
    readIndexF 2 ⟨0, [], [], [0x00, 0x08, 0x32, 4, 0, 0, 0], 0⟩ =
      .ok ([], ⟨7, [], [], [], 2⟩) ∧
    (7 : Nat) = 0 + (if isV2Stream [0x00, 0x08, 0x32, 4, 0, 0, 0] then
        3 + declaredIndexSize [0x00, 0x08, 0x32, 4, 0, 0, 0]
      else declaredIndexSize [0x00, 0x08, 0x32, 4, 0, 0, 0]) :=
  ⟨rfl, readIndex_advance_by_declared_size 2 ⟨0, [], [], [0x00, 0x08, 0x32, 4, 0, 0, 0], 0⟩
    [] ⟨7, [], [], [], 2⟩ rfl⟩

/-! ### Claim C9: exact output sizes for the reference composite -/

set_option maxRecDepth 1000000 in
/-- Claim C9: a version-2 writer given the reference top-level value
writes exactly 157 bytes when the list is empty and exactly 338 bytes when
the list holds the three reference elements, returns those byte counts,
and the produced streams equal, byte for byte, the outputs pinned by
`writer_test.go` (the descriptor layout is the spec-modelled index writer;
the body is the src writer). -/
theorem reference_composite_exact_sizes :
    writeObjectFull 100 ⟨2, 0, []⟩ refTyA refValA = .ok (157, ⟨2, 1, refBytes157⟩) ∧
    refBytes157.length = 157 ∧
    writeObjectFull 100 ⟨2, 0, []⟩ refTyB refValB = .ok (338, ⟨2, 1, refBytes338⟩) ∧
    refBytes338.length = 338 :=
  ⟨rfl, rfl, rfl, rfl⟩

/-! ### Claim C3: fields with the skip tag -/

/-- The skip flag `getTagInfo` reports depends only on the field's tag. -/
theorem getTagInfo_skips (ft : FTag) (k : FKind) (fv : IdxVal) (tP : Tag) :
    (getTagInfo ft k fv tP).1 = ft.skips := by
  cases ft with
  | ignored => rfl
  | notag => rfl
  | info n sk fx ix =>
    simp only [getTagInfo, FTag.skips]
    split <;> rfl

set_option maxRecDepth 1000000 in
/-- Claim C3, counterexample: in the reference schema the element field
`date` carries the skip tag, yet parsing the schema descriptor of the
pinned 157-byte stream yields `list` subfields `name` and `verified` only —
the skip-tagged field is NOT present in the schema descriptor, contrary to
the claim. -/
theorem skip_field_absent_from_descriptor_counterexample :
    (readIndexF 100 ⟨0, [], [], refBytes157, 0⟩).toOption.map
        (fun p => listSubfieldNames p.1) = some [gostr "name", gostr "verified"] ∧
    gostr "date" ∉ [gostr "name", gostr "verified"] :=
  ⟨rfl, by decide⟩

/-- Claim C3, amended: a struct field carrying the skip tag is omitted from
BOTH the schema descriptor and the record body — each walk runs its
`getTagInfo` (so a skipped array-key field still deposits the key metadata
in the parent array's tag) but contributes no bytes and is not recursed
into. -/
theorem skip_field_omitted_everywhere (fuel : Nat) (n : GoStr) (fx : Nat) (ix : GoStr)
    (v : TValue) (rest : List (FTag × TValue)) (fty : GoType)
    (restT : List (FTag × GoType)) (tP : Tag) (version : Nat) :
    writeStructB (fuel + 1) ((.info n true fx ix, v) :: rest) tP =
      writeStructB fuel rest (getTagInfo (.info n true fx ix) v.fkind v.fieldVal tP).2.2 ∧
    writeIndexStructM (fuel + 1) ((.info n true fx ix, fty) :: restT) tP version =
      writeIndexStructM fuel restT
        (getTagInfo (.info n true fx ix) fty.fkind (.s []) tP).2.2 version := by
  constructor
  · rcases hg : getTagInfo (.info n true fx ix) v.fkind v.fieldVal tP with ⟨sk, t, tP1⟩
    have hsk : sk = true := by
      have h := getTagInfo_skips (.info n true fx ix) v.fkind v.fieldVal tP
      rw [hg] at h
      exact h
    subst hsk
    rw [writeStructB, hg]
    simp
  · rcases hg : getTagInfo (.info n true fx ix) fty.fkind (.s []) tP with ⟨sk, t, tP1⟩
    have hsk : sk = true := by
      have h := getTagInfo_skips (.info n true fx ix) fty.fkind (.s []) tP
      rw [hg] at h
      exact h
    subst hsk
    rw [writeIndexStructM, hg]
    simp

/-! ### Claim C10: write_object is deterministic -/

/-- Claim C10: two fresh writers with the same version and empty sinks,
given the same value, produce byte-for-byte identical output streams and
equal returned byte counts; the embedded serialization walk is a pure
function of (version, type, value), with fields visited in declaration
order and no source of nondeterminism. -/
theorem writeObject_deterministic (fuel ver : Nat) (ty : GoType) (v : TValue)
    (w1 w2 : WState) (h1 : w1 = ⟨ver, 0, []⟩) (h2 : w2 = ⟨ver, 0, []⟩) :
    writeObjectFull fuel w1 ty v = writeObjectFull fuel w2 ty v := by
  subst h1
  subst h2
  rfl

/-- Claim C10, witness: the determinism theorem applied to two concrete
fresh version-2 writers and a concrete value. -/
theorem writeObject_deterministic_witness :
    (⟨2, 0, []⟩ : WState) = ⟨2, 0, []⟩ ∧ ((⟨2, 0, []⟩ : WState) = ⟨2, 0, []⟩ ∧
    writeObjectFull 5 ⟨2, 0, []⟩ .boolT (.vbool true) =
      writeObjectFull 5 ⟨2, 0, []⟩ .boolT (.vbool true)) :=
  ⟨rfl, rfl, writeObject_deterministic 5 2 .boolT (.vbool true) _ _ rfl rfl⟩

/-! ### Claim C6: the index is emitted exactly once -/

/-- A `WriteObject` call on a writer whose object counter is non-zero
appends exactly one record frame: no index, counter incremented. -/
theorem writeObjectFull_later (fuel : Nat) (w : WState) (ty : GoType) (v : TValue)
    (n : Nat) (w' : WState) (hpos : w.pos ≠ 0)
    (hok : writeObjectFull fuel w ty v = .ok (n, w')) :
    ∃ f, recordFrame fuel v = .ok f ∧ w'.out = w.out ++ f ∧
      w'.pos = w.pos + 1 ∧ w'.version = w.version := by
  unfold writeObjectFull at hok
  split at hok
  · cases hok
  · rename_i pre hpre
    rw [if_neg (by simp [hpos])] at hpre
    cases hpre
    split at hok
    · cases hok
    · rename_i body tfin hbody
      cases hok
      refine ⟨le32 (body.length + sizeFieldLen) ++ body, ?_, by simp, rfl, rfl⟩
      rw [recordFrame, hbody]

/-- The first `WriteObject` call on a fresh writer: the index block first
when the value is a composite (and only then), then one record frame. -/
theorem writeObjectFull_fresh (fuel ver : Nat) (ty : GoType) (v : TValue)
    (n : Nat) (w' : WState)
    (hok : writeObjectFull fuel ⟨ver, 0, []⟩ ty v = .ok (n, w')) :
    ∃ pre f, (if ty.isStrct then indexBlock fuel ver ty = .ok pre else pre = []) ∧
      recordFrame fuel v = .ok f ∧ w'.out = pre ++ f ∧ w'.pos = 1 ∧ w'.version = ver := by
  unfold writeObjectFull at hok
  split at hok
  · cases hok
  · rename_i pre hpre
    cases hstrct : ty.isStrct with
    | true =>
      rw [if_pos (by simp [hstrct])] at hpre
      split at hpre
      · cases hpre
      · rename_i ixb t1 hix
        cases hpre
        split at hok
        · cases hok
        · rename_i body tfin hbody
          cases hok
          refine ⟨(if 2 ≤ ver then IndexVersion2 else []) ++
              le32 (ixb.length + sizeFieldLen) ++ ixb,
            le32 (body.length + sizeFieldLen) ++ body, ?_, ?_, by simp, rfl, rfl⟩
          · simp only [if_true, indexBlock]
            simp only [hix]
          · rw [recordFrame, hbody]
    | false =>
      rw [if_neg (by simp [hstrct])] at hpre
      cases hpre
      split at hok
      · cases hok
      · rename_i body tfin hbody
        cases hok
        refine ⟨[], le32 (body.length + sizeFieldLen) ++ body, ?_, ?_, by simp, rfl, rfl⟩
        · simp
        · rw [recordFrame, hbody]

/-- Every call after the first appends only record frames. -/
theorem runWrites_after_first (fuel : Nat) (inputs : List (GoType × TValue)) :
    ∀ (w w' : WState), w.pos ≠ 0 → runWrites fuel w inputs = .ok w' →
      ∃ fs, framesOf fuel inputs = .ok fs ∧ w'.out = w.out ++ fs ∧
        w'.pos = w.pos + inputs.length ∧ w'.version = w.version := by
  induction inputs with
  | nil =>
    intro w w' _ hrun
    cases hrun
    exact ⟨[], rfl, by simp, by simp, rfl⟩
  | cons x rest ih =>
    intro w w' hpos hrun
    obtain ⟨ty, v⟩ := x
    unfold runWrites at hrun
    split at hrun
    · cases hrun
    · rename_i m w1 hw1
      obtain ⟨f, hf, hout, hposeq, hver⟩ := writeObjectFull_later fuel w ty v m w1 hpos hw1
      obtain ⟨fs, hfs, hout2, hpos2, hver2⟩ := ih w1 w' (by omega) hrun
      refine ⟨f ++ fs, ?_, ?_, ?_, ?_⟩
      · unfold framesOf
        rw [hf, hfs]
      · rw [hout2, hout, List.append_assoc]
      · rw [hpos2, hposeq]
        simp
        omega
      · rw [hver2, hver]

/-- Claim C6: for every successful sequence of write_object calls on a
single fresh writer, the index block is emitted exactly once — before the
first record frame and only when the first value is a composite — and
every call (the first included) emits exactly one record frame, the gate
being the object counter that ends equal to the number of objects written;
when the first value is not a composite no index is ever emitted. -/
theorem index_emitted_exactly_once (fuel ver : Nat) (first : GoType × TValue)
    (rest : List (GoType × TValue)) (w' : WState)
    (hrun : runWrites fuel ⟨ver, 0, []⟩ (first :: rest) = .ok w') :
    ∃ pre f fs,
      (if first.1.isStrct then indexBlock fuel ver first.1 = .ok pre else pre = []) ∧
      recordFrame fuel first.2 = .ok f ∧ framesOf fuel rest = .ok fs ∧
      w'.out = pre ++ f ++ fs ∧ w'.pos = rest.length + 1 ∧ w'.version = ver := by
  obtain ⟨ty, v⟩ := first
  unfold runWrites at hrun
  split at hrun
  · cases hrun
  · rename_i m w1 hw1
    obtain ⟨pre, f, hpre, hf, hout1, hpos1, hver1⟩ := writeObjectFull_fresh fuel ver ty v m w1 hw1
    obtain ⟨fs, hfs, hout2, hpos2, hver2⟩ :=
      runWrites_after_first fuel rest w1 w' (by omega) hrun
    refine ⟨pre, f, fs, hpre, hf, hfs, ?_, by omega, by rw [hver2, hver1]⟩
    rw [hout2, hout1, List.append_assoc]

set_option maxRecDepth 1000000 in
/-- Claim C6, witness: the lifecycle theorem applied to a concrete
two-object run of a version-2 writer over a one-field struct. -/
theorem index_emitted_exactly_once_witness :
    runWrites 10 ⟨2, 0, []⟩
        [(.strct [(.info (gostr "a") false 0 [], .boolT)], .vstruct [(.info (gostr "a") false 0 [], .vbool true)]),
         (.strct [(.info (gostr "a") false 0 [], .boolT)], .vstruct [(.info (gostr "a") false 0 [], .vbool false)])] =
      .ok ⟨2, 2, [0, 8, 50, 13, 0, 0, 0, 1, 0, 0, 0, 97, 3, 0, 0, 0,
                  5, 0, 0, 0, 1, 5, 0, 0, 0, 0]⟩ ∧
    (∃ pre f fs,
      (if (GoType.strct [(.info (gostr "a") false 0 [], .boolT)]).isStrct then
        indexBlock 10 2 (.strct [(.info (gostr "a") false 0 [], .boolT)]) = .ok pre
       else pre = []) ∧
      recordFrame 10 (.vstruct [(.info (gostr "a") false 0 [], .vbool true)]) = .ok f ∧
      framesOf 10 [(.strct [(.info (gostr "a") false 0 [], .boolT)],
                    .vstruct [(.info (gostr "a") false 0 [], .vbool false)])] = .ok fs ∧
      (⟨2, 2, [0, 8, 50, 13, 0, 0, 0, 1, 0, 0, 0, 97, 3, 0, 0, 0,
               5, 0, 0, 0, 1, 5, 0, 0, 0, 0]⟩ : WState).out = pre ++ f ++ fs ∧
      (⟨2, 2, [0, 8, 50, 13, 0, 0, 0, 1, 0, 0, 0, 97, 3, 0, 0, 0,
               5, 0, 0, 0, 1, 5, 0, 0, 0, 0]⟩ : WState).pos = 1 + 1 ∧
      (⟨2, 2, [0, 8, 50, 13, 0, 0, 0, 1, 0, 0, 0, 97, 3, 0, 0, 0,
               5, 0, 0, 0, 1, 5, 0, 0, 0, 0]⟩ : WState).version = 2) :=
  have hrun : runWrites 10 ⟨2, 0, []⟩
      [(.strct [(.info (gostr "a") false 0 [], .boolT)],
        .vstruct [(.info (gostr "a") false 0 [], .vbool true)]),
       (.strct [(.info (gostr "a") false 0 [], .boolT)],
        .vstruct [(.info (gostr "a") false 0 [], .vbool false)])] =
      .ok ⟨2, 2, [0, 8, 50, 13, 0, 0, 0, 1, 0, 0, 0, 97, 3, 0, 0, 0,
                  5, 0, 0, 0, 1, 5, 0, 0, 0, 0]⟩ := rfl
  ⟨hrun, index_emitted_exactly_once 10 2 _ _ _ hrun⟩

/-! ### Claim C2: array size accounting -/

/-- `getTagInfo` never changes the parent tag's `index` parameter. -/
theorem getTagInfo_index (ft : FTag) (k : FKind) (fv : IdxVal) (tP : Tag) :
    (getTagInfo ft k fv tP).2.2.index = tP.index := by
  cases ft with
  | ignored => rfl
  | notag => rfl
  | info n sk fx ix =>
    simp only [getTagInfo]
    split
    · cases k <;> rfl
    · rfl

/-- No writer walk changes the tag's `index` parameter: `getTagInfo` only
updates the key metadata fields. -/
theorem writer_preserves_index (fuel : Nat) :
    (∀ v t bs t', writeObjectB fuel v t = .ok (bs, t') → t'.index = t.index) ∧
    (∀ fs t bs t', writeStructB fuel fs t = .ok (bs, t') → t'.index = t.index) ∧
    (∀ es t s ix t', writeArrLoop fuel es t = .ok (s, ix, t') → t'.index = t.index) ∧
    (∀ es t bs t', writeArrayB fuel es t = .ok (bs, t') → t'.index = t.index) := by
  induction fuel with
  | zero =>
    refine ⟨fun v t bs t' h => by simp [writeObjectB] at h,
            fun fs t bs t' h => by simp [writeStructB] at h,
            fun es t s ix t' h => by simp [writeArrLoop] at h,
            fun es t bs t' h => by simp [writeArrayB] at h⟩
  | succ k ih =>
    obtain ⟨ihO, ihS, ihL, ihA⟩ := ih
    refine ⟨?_, ?_, ?_, ?_⟩
    · intro v t bs t' h
      cases v with
      | varr elems =>
        rw [writeObjectB] at h
        exact ihA _ _ _ _ h
      | vstruct fields =>
        rw [writeObjectB] at h
        exact ihS _ _ _ _ h
      | vstr s =>
        rw [writeObjectB] at h
        split at h
        · cases h
        · cases h
          rfl
      | vbool b =>
        rw [writeObjectB] at h
        cases h
        rfl
      | vint i =>
        rw [writeObjectB] at h
        cases h
        rfl
      | vfloat bits =>
        rw [writeObjectB] at h
        cases h
        rfl
    · intro fs t bs t' h
      cases fs with
      | nil =>
        rw [writeStructB] at h
        cases h
        rfl
      | cons p rest =>
        obtain ⟨ft, fv⟩ := p
        rw [writeStructB] at h
        split at h
        rename_i sk tc tP1 hg
        have hidx : tP1.index = t.index := by
          have hx := getTagInfo_index ft fv.fkind fv.fieldVal t
          rw [hg] at hx
          exact hx
        by_cases hsk : sk = true
        · rw [if_pos hsk] at h
          rw [ihS _ _ _ _ h, hidx]
        · rw [if_neg hsk] at h
          split at h
          · cases h
          · split at h
            · cases h
            · cases h
              rename_i heq
              rw [ihS _ _ _ _ heq, hidx]
    · intro es t s ix t' h
      cases es with
      | nil =>
        rw [writeArrLoop] at h
        cases h
        rfl
      | cons el els =>
        rw [writeArrLoop] at h
        split at h
        · cases h
        · rename_i bs1 t1 hel
          have h1 : t1.index = t.index := ihO _ _ _ _ hel
          split at h
          · split at h
            · cases h
            · split at h
              · cases h
              · cases h
                rename_i hrest
                rw [ihL _ _ _ _ _ hrest, h1]
          · split at h
            · cases h
            · cases h
              rename_i hrest
              rw [ihL _ _ _ _ _ hrest, h1]
    · intro es t bs t' h
      rw [writeArrayB] at h
      split at h
      · cases h
      · cases h
        rename_i hloop
        exact ihL _ _ _ _ _ hloop

/-- Length of an indexed array's key table with uniform key size: each of
the `count` entries is a key of `ks` bytes plus a 4-byte element size. -/
theorem keytable_length : ∀ (kbs bss : List (List Byte)) (ks : Nat),
    kbs.length = bss.length → (∀ kb ∈ kbs, kb.length = ks) →
    ((List.zipWith (fun kb bs => kb ++ le32 bs.length) kbs bss).flatten).length =
      kbs.length * (ks + 4) := by
  intro kbs
  induction kbs with
  | nil =>
    intro bss ks _ _
    simp
  | cons kb kbs ih =>
    intro bss ks hlen hk
    cases bss with
    | nil => simp at hlen
    | cons bs bss =>
      simp only [List.zipWith_cons_cons, List.flatten, List.length_append, List.length_cons]
      rw [ih bss ks (by simpa using hlen) (fun x hx => hk x (by simp [hx]))]
      have hkb : kb.length = ks := hk kb (by simp)
      have h4 : (le32 bs.length).length = 4 := le32_length _
      rw [hkb, h4]
      ring

/-- Structure of the element loop's output: the element bytes are the
concatenation of the per-element writes, and the key table is empty for an
unindexed array and one `(key, size)` entry per element otherwise. -/
theorem writeArrLoop_spec (fuel : Nat) :
    ∀ (elems : List TValue) (t : Tag) (snap snapIx : List Byte) (tF : Tag),
      writeArrLoop fuel elems t = .ok (snap, snapIx, tF) →
      ∃ bss : List (List Byte), bss.length = elems.length ∧ snap = bss.flatten ∧
        ((t.index = [] ∧ snapIx = []) ∨
         (t.index ≠ [] ∧ ∃ kbs : List (List Byte), kbs.length = elems.length ∧
           snapIx = (List.zipWith (fun kb bs => kb ++ le32 bs.length) kbs bss).flatten)) := by
  induction fuel with
  | zero =>
    intro elems t snap snapIx tF h
    simp [writeArrLoop] at h
  | succ k ih =>
    intro elems t snap snapIx tF h
    cases elems with
    | nil =>
      rw [writeArrLoop] at h
      cases h
      by_cases ht : t.index = []
      · exact ⟨[], rfl, rfl, Or.inl ⟨ht, rfl⟩⟩
      · exact ⟨[], rfl, rfl, Or.inr ⟨ht, [], rfl, rfl⟩⟩
    | cons el els =>
      rw [writeArrLoop] at h
      split at h
      · cases h
      · rename_i bs1 t1 hel
        have h1idx : t1.index = t.index := (writer_preserves_index k).1 _ _ _ _ hel
        split at h
        · rename_i hne
          split at h
          · cases h
          · rename_i kb hkb
            split at h
            · cases h
            · rename_i hrest
              cases h
              obtain ⟨bss, hlen, hsnap, hdisj⟩ := ih els t1 _ _ _ hrest
              refine ⟨bs1 :: bss, by simp [hlen], by simp [hsnap], Or.inr ⟨?_, ?_⟩⟩
              · rw [← h1idx]
                exact hne
              · rcases hdisj with ⟨hteq, _⟩ | ⟨_, kbs, hklen, hix⟩
                · exact absurd hteq hne
                · exact ⟨kb :: kbs, by simp [hklen], by simp [hix]⟩
        · rename_i hnn
          have ht1 : t1.index = [] := not_not.mp hnn
          split at h
          · cases h
          · rename_i hrest
            cases h
            obtain ⟨bss, hlen, hsnap, hdisj⟩ := ih els t1 _ _ _ hrest
            refine ⟨bs1 :: bss, by simp [hlen], by simp [hsnap], Or.inl ⟨?_, ?_⟩⟩
            · rw [← h1idx]
              exact ht1
            · rcases hdisj with ⟨_, hix⟩ | ⟨hne2, _⟩
              · exact hix
              · exact absurd ht1 hne2

/-- Claim C2: for every array the writer emits, the declared total size in
the first 4 bytes equals 4 + 4 + index_bytes + the sum of the element byte
lengths, where the index bytes are one `(key, elem_size)` entry per element
when indexed (so `count × (index_key_size + 4)` bytes for the uniform key
size the schema declares) and none otherwise; in particular a zero-length
array is emitted as exactly 8 bytes, size 8 then count 0, with no key table
and no elements. -/
theorem writeArray_size_accounting (fuel : Nat) (elems : List TValue) (t : Tag)
    (out : List Byte) (tF : Tag)
    (hok : writeArrayB (fuel + 1) elems t = .ok (out, tF)) :
    ∃ bss : List (List Byte), ∃ ixTable : List Byte,
      bss.length = elems.length ∧
      out = le32 (4 + 4 + ixTable.length + bss.flatten.length) ++ le32 elems.length ++
            ixTable ++ bss.flatten ∧
      out.length = 4 + 4 + ixTable.length + bss.flatten.length ∧
      (t.index = [] → ixTable = []) ∧
      (t.index ≠ [] → ∃ kbs : List (List Byte), kbs.length = elems.length ∧
        ixTable = (List.zipWith (fun kb bs => kb ++ le32 bs.length) kbs bss).flatten ∧
        ∀ ks : Nat, (∀ kb ∈ kbs, kb.length = ks) →
          ixTable.length = elems.length * (ks + 4)) := by
  rw [writeArrayB] at hok
  split at hok
  · cases hok
  · rename_i snap snapIx t1 hloop
    cases hok
    obtain ⟨bss, hlen, hsnap, hdisj⟩ := writeArrLoop_spec fuel elems t _ _ _ hloop
    subst hsnap
    have harith : bss.flatten.length + snapIx.length + sizeFieldLen + sizeFieldLen =
        4 + 4 + snapIx.length + bss.flatten.length := by
      simp only [sizeFieldLen]
      omega
    refine ⟨bss, snapIx, hlen, ?_, ?_, ?_, ?_⟩
    · rw [harith]
    · simp only [List.length_append, le32_length]
    · intro ht
      rcases hdisj with ⟨_, hix⟩ | ⟨hne, _⟩
      · exact hix
      · exact absurd ht hne
    · intro ht
      rcases hdisj with ⟨hteq, _⟩ | ⟨_, kbs, hklen, hix⟩
      · exact absurd hteq ht
      · refine ⟨kbs, hklen, hix, fun ks hk => ?_⟩
        rw [hix, keytable_length kbs bss ks (by omega) hk, hklen]

/-- Claim C2, witness: the accounting theorem applied to a concrete
two-element unindexed string array (total size 19 = 4 + 4 + 0 + 11). -/
theorem writeArray_size_accounting_witness :
    writeArrayB 5 [.vstr (gostr "ab"), .vstr (gostr "c")] tag0 =
      .ok ([19, 0, 0, 0, 2, 0, 0, 0, 2, 0, 0, 0, 97, 98, 1, 0, 0, 0, 99], tag0) ∧
    (∃ bss : List (List Byte), ∃ ixTable : List Byte,
      bss.length = 2 ∧
      [19, 0, 0, 0, 2, 0, 0, 0, 2, 0, 0, 0, 97, 98, 1, 0, 0, 0, 99] =
        le32 (4 + 4 + ixTable.length + bss.flatten.length) ++ le32 2 ++ ixTable ++ bss.flatten ∧
      (19 : Nat) = 4 + 4 + ixTable.length + bss.flatten.length ∧
      (tag0.index = [] → ixTable = []) ∧
      (tag0.index ≠ [] → ∃ kbs : List (List Byte), kbs.length = 2 ∧
        ixTable = (List.zipWith (fun kb bs => kb ++ le32 bs.length) kbs bss).flatten ∧
        ∀ ks : Nat, (∀ kb ∈ kbs, kb.length = ks) →
          ixTable.length = 2 * (ks + 4))) :=
  have hok : writeArrayB 5 [.vstr (gostr "ab"), .vstr (gostr "c")] tag0 =
      .ok ([19, 0, 0, 0, 2, 0, 0, 0, 2, 0, 0, 0, 97, 98, 1, 0, 0, 0, 99], tag0) := rfl
  ⟨hok, by
    have h := writeArray_size_accounting 4 [.vstr (gostr "ab"), .vstr (gostr "c")] tag0
      [19, 0, 0, 0, 2, 0, 0, 0, 2, 0, 0, 0, 97, 98, 1, 0, 0, 0, 99] tag0 hok
    obtain ⟨bss, ixT, h1, h2, h3, h4, h5⟩ := h
    exact ⟨bss, ixT, h1, h2, by rw [← h3]; rfl, h4, h5⟩⟩

/-! ### Claim C1: skip fidelity of the navigational reader -/

theorem flatten_drop_cons (encs : List (List Byte)) (i : Nat) (hi : i < encs.length) :
    (encs.drop i).flatten = encs[i] ++ (encs.drop (i + 1)).flatten := by
  conv_lhs => rw [List.drop_eq_getElem_cons hi]
  rw [List.flatten_cons]

theorem discard_append (n : Nat) (enc rest : List Byte) (hn : enc.length = n)
    (p : Nat) (ix : List IndexEntry) (atp : List GoStr) (ver : Nat) :
    discard n ⟨p, ix, atp, enc ++ rest, ver⟩ = .ok ((), ⟨p + n, ix, atp, rest, ver⟩) := by
  unfold discard
  rw [if_pos (by simp [← hn]), List.drop_left' hn]

theorem readSizeField_le32 (k : Nat) (tail : List Byte)
    (p : Nat) (ix : List IndexEntry) (atp : List GoStr) (ver : Nat) :
    readSizeField ⟨p, ix, atp, le32 k ++ tail, ver⟩ =
      .ok (k % 2 ^ 32, ⟨p + 4, ix, atp, tail, ver⟩) := by
  unfold readSizeField le32
  simp only [List.cons_append, List.nil_append, readLe32_le32]

theorem readFixedStringField_append (n : Nat) (enc rest : List Byte) (hn : enc.length = n)
    (p : Nat) (ix : List IndexEntry) (atp : List GoStr) (ver : Nat) :
    readFixedStringField n ⟨p, ix, atp, enc ++ rest, ver⟩ =
      .ok (enc, ⟨p + n, ix, atp, rest, ver⟩) := by
  unfold readFixedStringField
  rw [if_pos (by simp [← hn]), List.take_left' hn, List.drop_left' hn]

/-- Skipping a well-formed field discards exactly its on-wire size. -/
theorem advance_wf (e : IndexEntry) (enc rest : List Byte) (hwf : WFfield e enc)
    (p : Nat) (ix : List IndexEntry) (atp : List GoStr) (ver : Nat) :
    advance e ⟨p, ix, atp, enc ++ rest, ver⟩ =
      .ok ((), ⟨p + enc.length, ix, atp, rest, ver⟩) := by
  rcases hwf with ⟨hT, hL⟩ | ⟨hT, data, henc, hbound⟩ | ⟨hT, hL⟩ | ⟨hT, hL⟩ | ⟨hT, hL⟩ |
    ⟨hT, body, henc, hbound⟩
  · unfold advance
    rw [hT]
    norm_num [FieldTypeFixedStr]
    rw [← hL]
    exact discard_append _ enc rest rfl p ix atp ver
  · unfold advance
    rw [hT]
    norm_num [FieldTypeFixedStr, FieldTypeArray, FieldTypeVarStr]
    rw [henc, List.append_assoc]
    simp only [readSizeField_le32, Nat.mod_eq_of_lt hbound,
      discard_append data.length data rest rfl]
    simp [le32_length, Nat.add_assoc]
  · unfold advance
    rw [hT]
    norm_num [FieldTypeFixedStr, FieldTypeArray, FieldTypeVarStr, FieldTypeBool]
    rw [← hL]
    exact discard_append _ enc rest rfl p ix atp ver
  · unfold advance
    rw [hT]
    norm_num [FieldTypeFixedStr, FieldTypeArray, FieldTypeVarStr, FieldTypeBool,
      FieldTypeInt64, sizeInt64]
    rw [← hL]
    exact discard_append _ enc rest rfl p ix atp ver
  · unfold advance
    rw [hT]
    norm_num [FieldTypeFixedStr, FieldTypeArray, FieldTypeVarStr, FieldTypeBool,
      FieldTypeInt64, FieldTypeFloat, sizeFloat64]
    rw [← hL]
    exact discard_append _ enc rest rfl p ix atp ver
  · unfold advance
    rw [hT]
    norm_num [FieldTypeFixedStr, FieldTypeArray]
    rw [henc, List.append_assoc]
    have hsub : 4 + body.length - sizeFieldLen = body.length := by
      unfold sizeFieldLen
      omega
    have hnlt : ¬ (4 + body.length < sizeFieldLen) := by
      unfold sizeFieldLen
      omega
    simp only [readSizeField_le32, Nat.mod_eq_of_lt hbound, if_neg hnlt, hsub,
      discard_append body.length body rest rfl]
    simp [le32_length, Nat.add_assoc]

/-- Reading a well-formed field consumes exactly its encoding and observes
the value it denotes. -/
theorem readFieldValue_wf (e : IndexEntry) (enc rest : List Byte) (hwf : WFfield e enc)
    (p : Nat) (ix : List IndexEntry) (atp : List GoStr) (ver : Nat) :
    readFieldValue e ⟨p, ix, atp, enc ++ rest, ver⟩ =
      .ok (decodeField e enc, ⟨p + enc.length, ix, atp, rest, ver⟩) := by
  rcases hwf with ⟨hT, hL⟩ | ⟨hT, data, henc, hbound⟩ | ⟨hT, hL⟩ | ⟨hT, hL⟩ | ⟨hT, hL⟩ |
    ⟨hT, body, henc, hbound⟩
  · unfold readFieldValue decodeField
    rw [hT]
    norm_num [FieldTypeFixedStr, FieldTypeVarStr]
    rw [← hL]
    simp only [readFixedStringField_append enc.length enc rest rfl]
  · unfold readFieldValue decodeField
    rw [hT]
    norm_num [FieldTypeVarStr]
    unfold readStringField
    rw [henc, List.append_assoc]
    simp only [readSizeField_le32, Nat.mod_eq_of_lt hbound]
    rw [if_pos (by simp), List.take_left' rfl, List.drop_left' rfl]
    simp [List.drop_left' (le32_length data.length), le32_length, Nat.add_assoc]
  · unfold readFieldValue decodeField
    rw [hT]
    norm_num [FieldTypeFixedStr, FieldTypeVarStr, FieldTypeBool]
    match enc, hL with
    | [b], _ =>
      unfold readBoolField
      simp
  · unfold readFieldValue decodeField
    rw [hT]
    norm_num [FieldTypeFixedStr, FieldTypeVarStr, FieldTypeBool, FieldTypeInt64]
    unfold readIntField
    rw [if_pos (by simp [sizeInt64, ← hL]), List.take_left' (by simp [sizeInt64, hL]),
      List.drop_left' (by simp [sizeInt64, hL])]
    simp [sizeInt64, hL]
  · unfold readFieldValue decodeField
    rw [hT]
    norm_num [FieldTypeFixedStr, FieldTypeVarStr, FieldTypeBool, FieldTypeInt64,
      FieldTypeFloat]
    unfold readFloatField
    rw [if_pos (by simp [sizeFloat64, ← hL]), List.take_left' (by simp [sizeFloat64, hL]),
      List.drop_left' (by simp [sizeFloat64, hL])]
    simp [sizeFloat64, hL]
  · unfold readFieldValue decodeField
    rw [hT]
    norm_num [FieldTypeFixedStr, FieldTypeVarStr, FieldTypeBool, FieldTypeInt64,
      FieldTypeFloat, FieldTypeArray]
    rw [henc, List.append_assoc]
    have hsub : 4 + body.length - sizeFieldLen = body.length := by
      unfold sizeFieldLen
      omega
    have hnlt : ¬ (4 + body.length < sizeFieldLen) := by
      unfold sizeFieldLen
      omega
    simp only [readSizeField_le32, Nat.mod_eq_of_lt hbound, if_neg hnlt, hsub,
      readFixedStringField_append body.length body rest rfl]
    simp [List.drop_left' (le32_length (4 + body.length)), le32_length, Nat.add_assoc]

theorem sumLen_succ (encs : List (List Byte)) (i n : Nat) (hi : i < encs.length) :
    sumLen encs i (i + (n + 1)) = encs[i].length + sumLen encs (i + 1) (i + 1 + n) := by
  unfold sumLen
  rw [List.drop_eq_getElem_cons hi]
  have h1 : i + (n + 1) - i = n + 1 := by omega
  have h2 : i + 1 + n - (i + 1) = n := by omega
  rw [h1, h2, List.take_succ_cons, List.map_cons, List.sum_cons]

/-- A sequential read of a record whose fields are all well-formed yields
each field's denoted value, in order. -/
theorem readSeq_wf (S : List IndexEntry) (encs : List (List Byte)) (rest : List Byte)
    (hwf : List.Forall₂ WFfield S encs)
    (p : Nat) (ix : List IndexEntry) (atp : List GoStr) (ver : Nat) :
    readSeq S ⟨p, ix, atp, encs.flatten ++ rest, ver⟩ =
      .ok (List.zipWith decodeField S encs,
           ⟨p + ((encs.map List.length).sum), ix, atp, rest, ver⟩) := by
  induction hwf generalizing p with
  | nil => simp [readSeq]
  | cons h hs ih =>
    rename_i e enc S2 encs2
    unfold readSeq
    rw [List.flatten_cons, List.append_assoc]
    simp only [readFieldValue_wf e enc _ h, ih]
    simp [Nat.add_assoc]

/-- The `AdvanceTo` skipping loop over well-formed sibling encodings
discards exactly the bytes of the skipped fields. -/
theorem advIterF_wf (count : Nat) (S : List IndexEntry) (encs : List (List Byte))
    (i : Nat) (rest : List Byte) (hwf : List.Forall₂ WFfield S encs)
    (hstop : i + count ≤ S.length)
    (p : Nat) (ix : List IndexEntry) (atp : List GoStr) (ver : Nat) :
    advIterF count S i ⟨p, ix, atp, (encs.drop i).flatten ++ rest, ver⟩ =
      .ok ((), ⟨p + sumLen encs i (i + count), ix, atp,
                (encs.drop (i + count)).flatten ++ rest, ver⟩) := by
  induction count generalizing i p with
  | zero => simp [advIterF, sumLen]
  | succ n ih =>
    have hlen : S.length = encs.length := hwf.length_eq
    have hi : i < S.length := by omega
    have hi2 : i < encs.length := by omega
    unfold advIterF
    rw [List.getElem?_eq_getElem hi]
    have hat : WFfield S[i] encs[i] := hwf.get hi hi2
    rw [flatten_drop_cons encs i hi2, List.append_assoc]
    simp only [advance_wf S[i] encs[i] _ hat]
    have hrec := ih (i + 1) (by omega) (p + encs[i].length)
    rw [hrec, sumLen_succ encs i n hi2]
    have h3 : i + 1 + n = i + (n + 1) := by omega
    rw [h3]
    simp [Nat.add_assoc]

/-- `entryFindAux` returns the first entry named `f` with its position. -/
theorem entryFindAux_spec (S : List IndexEntry) (f : GoStr) (hf : f ≠ Top) :
    ∀ (base i : Nat) (hi : i < S.length), S[i].fieldName = f →
    (∀ j, j < i → ∀ (hj : j < S.length), S[j].fieldName ≠ f) →
    entryFindAux S f base = some (base + i, S[i]) := by
  induction S with
  | nil =>
    intro base i hi
    exact absurd hi (by simp)
  | cons e es ih =>
    intro base i hi hname hfirst
    cases i with
    | zero =>
      have h0 : e.fieldName = f := by simpa using hname
      unfold entryFindAux
      rw [if_pos (Or.inl h0)]
      simp
    | succ k =>
      have h0 : e.fieldName ≠ f := by
        have := hfirst 0 (by omega) (by simp)
        simpa using this
      unfold entryFindAux
      rw [if_neg (by
        push_neg
        exact ⟨h0, hf⟩)]
      have hk : k < es.length := by simpa using hi
      have hname2 : es[k].fieldName = f := by simpa using hname
      have hfirst2 : ∀ j, j < k → ∀ (hj : j < es.length), es[j].fieldName ≠ f := by
        intro j hj hjl
        have := hfirst (j + 1) (by omega) (by simpa using Nat.succ_lt_succ hjl)
        simpa using this
      rw [ih (base + 1) k hk hname2 hfirst2]
      have hb : base + 1 + k = base + (k + 1) := by omega
      simp [hb]

/-- Resolving a one-name path lands on the first entry of that name. -/
theorem entrySet_single (S : List IndexEntry) (i : Nat) (hi : i < S.length)
    (hne : S[i].fieldName ≠ Top)
    (hfirst : ∀ j, j < i → ∀ (hj : j < S.length), S[j].fieldName ≠ S[i].fieldName) :
    entrySet S [S[i].fieldName] = some (S, (i : Int)) := by
  show entrySetAux [S[i].fieldName] S S 0 = some (S, (i : Int))
  simp only [entrySetAux, entryFindAux_spec S _ hne 0 i hi rfl hfirst, if_neg hne]
  simp

/-- Resolving the `Top` path yields the root list at position −1. -/
theorem entrySet_top (e : IndexEntry) (es : List IndexEntry) :
    entrySet (e :: es) [Top] = some (e :: es, -1) := by
  show entrySetAux [Top] (e :: es) (e :: es) 0 = some (e :: es, -1)
  simp only [entrySetAux]
  unfold entryFindAux
  rw [if_pos (Or.inr rfl)]
  simp [entrySetAux]

/-- The first `AdvanceTo` of a fresh reader (empty position path) to a
top-level field skips exactly the earlier siblings' on-wire bytes. -/
theorem advanceTo_first (S : List IndexEntry) (encs : List (List Byte)) (rest : List Byte)
    (i : Nat) (hi : i < S.length) (hwf : List.Forall₂ WFfield S encs)
    (hne : S[i].fieldName ≠ Top)
    (hfirst : ∀ j, j < i → ∀ (hj : j < S.length), S[j].fieldName ≠ S[i].fieldName)
    (p0 ver : Nat) :
    advanceTo [S[i].fieldName] ⟨p0, S, [], encs.flatten ++ rest, ver⟩ =
      .ok ((), ⟨p0 + sumLen encs 0 i, S, [S[i].fieldName],
                (encs.drop i).flatten ++ rest, ver⟩) := by
  obtain ⟨e, es, rfl⟩ : ∃ e es, S = e :: es := by
    cases S with
    | nil => simp at hi
    | cons e es => exact ⟨e, es, rfl⟩
  have hiter := advIterF_wf i (e :: es) encs 0 rest hwf (by omega) p0 (e :: es) [] ver
  rw [List.drop_zero] at hiter
  simp only [Nat.zero_add] at hiter
  unfold advanceTo
  norm_num
  simp only [entrySet_top e es, entrySet_single (e :: es) i hi hne hfirst]
  norm_num [hiter]

/-- A subsequent `AdvanceTo` between two top-level fields skips exactly the
on-wire bytes of the siblings strictly between them. -/
theorem advanceTo_between (S : List IndexEntry) (encs : List (List Byte)) (rest : List Byte)
    (i j : Nat) (hij : i < j) (hj : j < S.length) (hwf : List.Forall₂ WFfield S encs)
    (hnei : S[i].fieldName ≠ Top) (hnej : S[j].fieldName ≠ Top)
    (hfi : ∀ k, k < i → ∀ (hk : k < S.length), S[k].fieldName ≠ S[i].fieldName)
    (hfj : ∀ k, k < j → ∀ (hk : k < S.length), S[k].fieldName ≠ S[j].fieldName)
    (p : Nat) (ver : Nat) :
    advanceTo [S[j].fieldName]
        ⟨p, S, [S[i].fieldName], (encs.drop (i + 1)).flatten ++ rest, ver⟩ =
      .ok ((), ⟨p + sumLen encs (i + 1) j, S, [S[j].fieldName],
                (encs.drop j).flatten ++ rest, ver⟩) := by
  have hiter := advIterF_wf (j - (i + 1)) S encs (i + 1) rest hwf (by omega) p S
    [S[i].fieldName] ver
  have hstop : i + 1 + (j - (i + 1)) = j := by omega
  rw [hstop] at hiter
  unfold advanceTo
  norm_num
  simp only [entrySet_single S i (by omega) hnei hfi,
    entrySet_single S j (by omega) hnej hfj]
  norm_num [hiter]

theorem sumLen_snoc (encs : List (List Byte)) (i : Nat) (hi : i < encs.length) :
    sumLen encs 0 (i + 1) = sumLen encs 0 i + encs[i].length := by
  unfold sumLen
  simp only [List.drop_zero, Nat.sub_zero]
  rw [List.take_succ, List.getElem?_eq_getElem hi, List.map_append, List.sum_append]
  simp

theorem sumLen_add (encs : List (List Byte)) (a b : Nat) (hab : a ≤ b) :
    sumLen encs 0 a + sumLen encs a b = sumLen encs 0 b := by
  unfold sumLen
  simp only [List.drop_zero, Nat.sub_zero]
  rw [List.take_drop]
  have h1 : a + (b - a) = b := by omega
  rw [h1]
  conv_rhs => rw [← List.take_append_drop a (encs.take b)]
  rw [List.take_take]
  have h2 : min a b = a := by omega
  rw [h2]
  simp

/-- **C1** (amended: top-level sibling paths). Over a well-formed record
body under schema `S` with distinct, non-empty top-level field names, the
navigational sequence advance_to(field i); read; advance_to(field j); read
(for i < j) skips exactly the intervening siblings' on-wire bytes at each
step, and the two values it observes are exactly the values at positions
i and j of the sequential read of every field in declaration order. -/
theorem skip_fidelity_top_level (S : List IndexEntry) (encs : List (List Byte))
    (rest : List Byte) (i j : Nat) (hij : i < j) (hj : j < S.length)
    (hlen : encs.length = S.length) (hwf : List.Forall₂ WFfield S encs)
    (hne : ∀ k (hk : k < S.length), S[k].fieldName ≠ Top)
    (hnodup : (S.map IndexEntry.fieldName).Nodup) (p0 ver : Nat) :
    advanceTo [S[i].fieldName] ⟨p0, S, [], encs.flatten ++ rest, ver⟩ =
      .ok ((), ⟨p0 + sumLen encs 0 i, S, [S[i].fieldName],
                (encs.drop i).flatten ++ rest, ver⟩) ∧
    readFieldValue S[i]
        ⟨p0 + sumLen encs 0 i, S, [S[i].fieldName],
         (encs.drop i).flatten ++ rest, ver⟩ =
      .ok ((List.zipWith decodeField S encs).get
             ⟨i, by rw [List.length_zipWith] ; omega⟩,
           ⟨p0 + sumLen encs 0 (i + 1), S, [S[i].fieldName],
            (encs.drop (i + 1)).flatten ++ rest, ver⟩) ∧
    advanceTo [S[j].fieldName]
        ⟨p0 + sumLen encs 0 (i + 1), S, [S[i].fieldName],
         (encs.drop (i + 1)).flatten ++ rest, ver⟩ =
      .ok ((), ⟨p0 + sumLen encs 0 j, S, [S[j].fieldName],
                (encs.drop j).flatten ++ rest, ver⟩) ∧
    readFieldValue S[j]
        ⟨p0 + sumLen encs 0 j, S, [S[j].fieldName],
         (encs.drop j).flatten ++ rest, ver⟩ =
      .ok ((List.zipWith decodeField S encs).get
             ⟨j, by rw [List.length_zipWith] ; omega⟩,
           ⟨p0 + sumLen encs 0 (j + 1), S, [S[j].fieldName],
            (encs.drop (j + 1)).flatten ++ rest, ver⟩) ∧
    readSeq S ⟨p0, S, [], encs.flatten ++ rest, ver⟩ =
      .ok (List.zipWith decodeField S encs,
           ⟨p0 + ((encs.map List.length).sum), S, [], rest, ver⟩) := by
  have hi : i < S.length := by omega
  have hi2 : i < encs.length := by omega
  have hj2 : j < encs.length := by omega
  have hfi : ∀ k, k < i → ∀ (hk : k < S.length), S[k].fieldName ≠ S[i].fieldName := by
    intro k hk hkl heq
    have hkm : k < (S.map IndexEntry.fieldName).length := by simpa using hkl
    have him : i < (S.map IndexEntry.fieldName).length := by simpa using hi
    have hEq : (S.map IndexEntry.fieldName).get ⟨k, hkm⟩ =
        (S.map IndexEntry.fieldName).get ⟨i, him⟩ := by
      simp only [List.get_eq_getElem, List.getElem_map]
      exact heq
    have := (hnodup.get_inj_iff).mp hEq
    have : k = i := congrArg Fin.val this
    omega
  have hfj : ∀ k, k < j → ∀ (hk : k < S.length), S[k].fieldName ≠ S[j].fieldName := by
    intro k hk hkl heq
    have hkm : k < (S.map IndexEntry.fieldName).length := by simpa using hkl
    have hjm : j < (S.map IndexEntry.fieldName).length := by simpa using hj
    have hEq : (S.map IndexEntry.fieldName).get ⟨k, hkm⟩ =
        (S.map IndexEntry.fieldName).get ⟨j, hjm⟩ := by
      simp only [List.get_eq_getElem, List.getElem_map]
      exact heq
    have := (hnodup.get_inj_iff).mp hEq
    have : k = j := congrArg Fin.val this
    omega
  have h1 := advanceTo_first S encs rest i hi hwf (hne i hi) hfi p0 ver
  have h2 := readFieldValue_wf S[i] encs[i] ((encs.drop (i + 1)).flatten ++ rest)
      (hwf.get hi hi2) (p0 + sumLen encs 0 i) S [S[i].fieldName] ver
  rw [← List.append_assoc, ← flatten_drop_cons encs i hi2] at h2
  have e1 : p0 + sumLen encs 0 i + encs[i].length = p0 + sumLen encs 0 (i + 1) := by
    rw [sumLen_snoc encs i hi2]
    omega
  rw [e1] at h2
  have h3 := advanceTo_between S encs rest i j hij hj hwf (hne i hi) (hne j hj) hfi hfj
      (p0 + sumLen encs 0 (i + 1)) ver
  have e2 : p0 + sumLen encs 0 (i + 1) + sumLen encs (i + 1) j = p0 + sumLen encs 0 j := by
    rw [← sumLen_add encs (i + 1) j (by omega)]
    omega
  rw [e2] at h3
  have h4 := readFieldValue_wf S[j] encs[j] ((encs.drop (j + 1)).flatten ++ rest)
      (hwf.get hj hj2) (p0 + sumLen encs 0 j) S [S[j].fieldName] ver
  rw [← List.append_assoc, ← flatten_drop_cons encs j hj2] at h4
  have e3 : p0 + sumLen encs 0 j + encs[j].length = p0 + sumLen encs 0 (j + 1) := by
    rw [sumLen_snoc encs j hj2]
    omega
  rw [e3] at h4
  have h5 := readSeq_wf S encs rest hwf p0 S [] ver
  refine ⟨h1, ?_, h3, ?_, h5⟩
  · rw [h2]
    simp [List.getElem_zipWith]
  · rw [h4]
    simp [List.getElem_zipWith]

/-- Witness: on the three-bool schema with body bytes 1,0,1, the second
advance_to (from field u toward field w) skips exactly field v's single
byte. -/
theorem skip_fidelity_top_level_witness :
    advanceTo [gostr "w"] ⟨1, wSchema, [gostr "u"], [0, 1], 2⟩ =
      .ok ((), ⟨2, wSchema, [gostr "w"], [1], 2⟩) :=
  (skip_fidelity_top_level wSchema [[1], [0], [1]] [] 0 2 (by decide) (by decide) rfl
    (List.Forall₂.cons (Or.inr (Or.inr (Or.inl ⟨rfl, rfl⟩)))
      (List.Forall₂.cons (Or.inr (Or.inr (Or.inl ⟨rfl, rfl⟩)))
        (List.Forall₂.cons (Or.inr (Or.inr (Or.inl ⟨rfl, rfl⟩))) List.Forall₂.nil)))
    (by decide) (by decide) 0 2).2.2.1

/-- **C1** counterexample for nested paths: under `cexSchema` (a 5-byte
VAR_STR field `a`, then array `list` of structs with fields `x`, `y`),
`AdvanceTo(list, x)` from a fresh reader skips nothing at all — the loop
bounds come from two lists at different nesting levels, so the cursor stays
at byte 0 instead of skipping field `a` and the array header — and the
following read observes field `a`'s value "A", while the record's actual
value at path (list, x), which starts at byte 13 = 5 + 4 + 4, is "B". -/
theorem skip_fidelity_nested_path_counterexample :
    (advanceTo [gostr "list", gostr "x"] ⟨0, cexSchema, [], cexBody, 2⟩ =
      .ok ((), ⟨0, cexSchema, [gostr "list", gostr "x"], cexBody, 2⟩)) ∧
    (readFieldValue (.mk (gostr "x") FieldTypeVarStr 0 false 0 0 0 [])
        ⟨0, cexSchema, [gostr "list", gostr "x"], cexBody, 2⟩ =
      .ok (.str (gostr "A"),
           ⟨5, cexSchema, [gostr "list", gostr "x"], cexBody.drop 5, 2⟩)) ∧
    (readFieldValue (.mk (gostr "x") FieldTypeVarStr 0 false 0 0 0 [])
        ⟨13, cexSchema, [gostr "list", gostr "x"], cexBody.drop 13, 2⟩ =
      .ok (.str (gostr "B"),
           ⟨18, cexSchema, [gostr "list", gostr "x"], cexBody.drop 18, 2⟩)) ∧
    gostr "A" ≠ gostr "B" :=
  ⟨rfl, rfl, rfl, by decide⟩

end RSF
